import Mathlib

/-!
Verification of the diff engine of python-wikeddiff (a Python port of the
wikEd diff JavaScript library).  The definitions below are a shallow
embedding of the packaged engine in WikEdDiff/diff.py and of the regular
expression configuration in WikEdDiff/config.py; theorems settle the
specification claims about that code.

Conventions of the embedding:
  * Python None is Option.none; the token arena is an Array indexed by Nat.
  * Python dictionaries appear as association lists; lookups take the first
    matching key, and the construction functions keep keys unique.
  * While loops over the doubly linked token list are written as fuel
    bounded recursion; the fuel (arena size plus one) strictly exceeds the
    number of iterations any run over a well formed arena can make, so on
    well formed arenas the fuel never runs out.
  * Regular expressions with explicit character classes (blankOnlyToken,
    slideStop, slideBorder from config.py) are embedded exactly; the two
    word counting regexps (countWords, countChunks) enter as parameters of
    a RegExpEnv structure, because the unique word test of the engine only
    consumes the list of matched substrings.
-/

/-! ### Character classes from WikEdDiffConfig (config.py)

regExpBlanks is the class " \t\x0b -​  　",
regExpNewLinesAll is "\n\r\u0085 " and regExpNewParagraph is
"\f ".  -/

/-- Membership in the regExpBlanks character class of config.py. -/
def isBlankChar (c : Char) : Bool :=
  c = ' ' || c = '\t' || c.toNat = 0x0b ||
  (0x2000 ≤ c.toNat && c.toNat ≤ 0x200b) ||
  c.toNat = 0x202f || c.toNat = 0x205f || c.toNat = 0x3000

/-- Membership in the regExpNewLinesAll character class of config.py. -/
def isNewLineChar (c : Char) : Bool :=
  c = '\n' || c = '\r' || c.toNat = 0x85 || c.toNat = 0x2028

/-- Membership in the regExpNewParagraph character class of config.py. -/
def isNewParagraphChar (c : Char) : Bool :=
  c.toNat = 0x0c || c.toNat = 0x2029

/-- The union class used by the blankOnlyToken pattern of config.py:
blanks, all newline characters, and new paragraph characters. -/
def isBlankClassChar (c : Char) : Bool :=
  isBlankChar c || isNewLineChar c || isNewParagraphChar c

/-- The class of the slideStop pattern of config.py: all newline
characters and new paragraph characters. -/
def isSlideStopChar (c : Char) : Bool :=
  isNewLineChar c || isNewParagraphChar c

/-- Python re.search of the blankOnlyToken pattern "[^ class ]" read as a
boolean: a match exists if and only if some character of the string lies
outside the class of blanks, newlines, and new paragraph characters. -/
def blankOnlyTokenSearch (s : String) : Bool :=
  s.data.any (fun c => ¬ isBlankClassChar c)

/-- Python re.search of an end anchored class pattern "[ class ]$" read as
a boolean.  Without re.MULTILINE, the dollar anchor of Python matches at
the very end of the string and also just before a single trailing
newline, so a match exists when the last character is in the class, or
when the second to last character is in the class and the last character
is a line feed. -/
def pyDollarClassSearch (cls : Char → Bool) (s : String) : Bool :=
  let l := s.data
  (match l.getLast? with
   | some c => cls c
   | none => false) ||
  (match (l.dropLast).getLast?, l.getLast? with
   | some c, some d => cls c && d = '\n'
   | _, _ => false)

/-- The Python expression "regExpSlideStop.search( token ) is True" from
diff.py line 651.  re.search returns either None or a Match object and
neither is the object True, so the identity test is False for every
token; the branch guarded by it is dead code.  The argument is the truth
value of the search (whether a match exists). -/
def pyMatchIsTrueLiteral (_found : Bool) : Bool :=
  false

/-- The Python expression comparing two re.search results with "!=" from
diff.py line 657.  Match objects do not define structural equality, so
the comparison is object identity: None != None is False, while any
comparison involving at least one freshly produced Match object is True.
The arguments are the truth values of the two searches. -/
def pyMatchNeq (a b : Bool) : Bool :=
  a || b

/-! ### Fragment model (diff.py docstring and getDiffFragments)

Fragment types as an explicit sum type.  The source uses string
discriminants: "=", "-", "+", "<", ">", "(<", "(>", " )" (the moved block
end carries a leading blank in the code), "~", " ~", "~ ", "[", "]", ",",
and the container pair.  -/

inductive FType where
  | same
  | del
  | ins
  | markLeft
  | markRight
  | moveOpenLeft
  | moveOpenRight
  | moveClose
  | omitted
  | omittedBlankLeft
  | omittedBlankRight
  | fragStart
  | fragEnd
  | fragSep
  | containerStart
  | containerEnd
  deriving DecidableEq, Repr

/-- One element of the fragment stream: text, moved color, type. -/
structure Fragment where
  text : String
  color : Nat
  type : FType
  deriving DecidableEq, Repr

instance : Inhabited Fragment := ⟨⟨"", 0, FType.same⟩⟩

/-- True for the two moved block start fragment types. -/
def FType.isMoveOpen : FType → Bool
  | FType.moveOpenLeft => true
  | FType.moveOpenRight => true
  | _ => false

/-! ### Trivial case of WikEdDiff.diff (diff.py lines 224 to 242) -/

/-- The trailing newline strip at the top of diff (diff.py lines 224 to
228): when the option is on and both version strings end with a newline,
one character is removed from each.  Returns the pair (old, new). -/
def stripTrailingNewlinePair (strip : Bool) (oldString newString : String) :
    String × String :=
  if strip ∧ newString.endsWith "\n" ∧ oldString.endsWith "\n" then
    (oldString.dropRight 1, newString.dropRight 1)
  else
    (oldString, newString)

/-- The five fragment trivial stream built by diff when the two version
texts are equal (diff.py lines 235 to 242). -/
def diffTrivialFragments : List Fragment :=
  [ ⟨"", 0, FType.containerStart⟩,
    ⟨"", 0, FType.fragStart⟩,
    ⟨"", 0, FType.same⟩,
    ⟨"", 0, FType.fragEnd⟩,
    ⟨"", 0, FType.containerEnd⟩ ]

/-- The early exit of WikEdDiff.diff: after the optional trailing newline
strip the engine compares the two version texts and, when they are equal,
returns the trivial stream at once (some result); otherwise the pipeline
continues (none). -/
def diffTrivialCheck (strip : Bool) (oldString newString : String) :
    Option (List Fragment) :=
  let p := stripTrailingNewlinePair strip oldString newString
  if p.2 = p.1 then some diffTrivialFragments else none

/-! ### Word counting (WikEdDiffText.wordParse, diff.py lines 2701 to 2706) -/

/-- One update of the words table: Python
"words.setdefault(word, 0); words[word] += 1".  On an absent key a fresh
entry with count one is appended; on a present key the count is
incremented.  Keys stay unique when starting from a table with unique
keys. -/
def wordsIncr (ws : List (String × Nat)) (w : String) : List (String × Nat) :=
  if (ws.lookup w).isSome then
    ws.map (fun p => if p.1 = w then (p.1, p.2 + 1) else p)
  else
    ws ++ [(w, 1)]

/-- WikEdDiffText.wordParse: iterate over the matches of the counting
pattern on the version text (here given as the list of matched
substrings, which is what finditer produces) and count each into the
words table. -/
def wordParse (regExpMatches : List String) (ws : List (String × Nat)) :
    List (String × Nat) :=
  regExpMatches.foldl wordsIncr ws

/-- Reading a count out of the words table; Python lookups of absent
words fall through to zero. -/
def wordsLookup (ws : List (String × Nat)) (w : String) : Nat :=
  (ws.lookup w).getD 0

/-! ### Token arena (WikEdDiffText, data_structures.Token) -/

/-- A token of the arena: text slice, doubly linked list indices, link
into the other version, enumeration number, uniqueness flag. -/
structure Tok where
  token : String
  prev : Option Nat
  next : Option Nat
  link : Option Nat
  number : Option Nat
  unique : Bool
  deriving DecidableEq, Repr

instance : Inhabited Tok := ⟨⟨"", none, none, none, none, false⟩⟩

/-- Read a token of the arena; out of range reads return the default
token (they do not occur on well formed arenas, where every stored index
is in range). -/
def getTok (a : Array Tok) (i : Nat) : Tok :=
  (a.get? i).getD default

/-- Write a token of the arena; out of range writes keep the arena. -/
def setTok (a : Array Tok) (i : Nat) (t : Tok) : Array Tok :=
  a.setD i t

/-- Overwrite only the link field of the token at an index. -/
def setLink (a : Array Tok) (i : Nat) (v : Option Nat) : Array Tok :=
  setTok a i { getTok a i with link := v }

/-- Overwrite only the unique field of the token at an index. -/
def setUnique (a : Array Tok) (i : Nat) (v : Bool) : Array Tok :=
  setTok a i { getTok a i with unique := v }

/-- The index sequence visited by following a pointer field from a start
index, cut off by fuel.  The loops of the engine follow next (downwards)
or prev (upwards). -/
def tokenWalk (a : Array Tok) (step : Tok → Option Nat) :
    Nat → Option Nat → List Nat
  | 0, _ => []
  | _ + 1, none => []
  | fuel + 1, some i => i :: tokenWalk a step fuel (step (getTok a i))

/-- A text version: token arena, first and last live index, words table
(WikEdDiffText fields used by the diff passes). -/
structure TextArena where
  tokens : Array Tok
  first : Option Nat
  last : Option Nat
  words : List (String × Nat)
  deriving Repr

/-! ### Block model (data_structures.Block, data_structures.Group) -/

/-- Block types of the engine: "=", "-", "+", "|" (same, deletion,
insertion, mark). -/
inductive BType where
  | same
  | del
  | ins
  | mark
  deriving DecidableEq, Repr

/-- Block data in new text order (data_structures.Block).  Python None
values are Option.none; newNumber can also hold the sentinel -1, hence
Int. -/
structure Block where
  oldBlock : Option Nat
  newBlock : Option Nat
  oldNumber : Option Int
  newNumber : Option Int
  oldStart : Option Nat
  count : Option Nat
  unique : Option Bool
  words : Nat
  chars : Nat
  type : BType
  sect : Option Nat
  group : Option Nat
  fixed : Option Bool
  moved : Option Nat
  text : String
  deriving DecidableEq, Repr

instance : Inhabited Block :=
  ⟨⟨none, none, none, none, none, none, none, 0, 0, BType.same,
    none, none, none, none, ""⟩⟩

/-- Group data (data_structures.Group). -/
structure DiffGroup where
  oldNumber : Option Int
  blockStart : Nat
  blockEnd : Nat
  unique : Bool
  maxWords : Option Nat
  words : Nat
  chars : Nat
  fixed : Bool
  movedFrom : Option Nat
  color : Nat
  deriving DecidableEq, Repr

instance : Inhabited DiffGroup :=
  ⟨⟨none, 0, 0, false, none, 0, 0, false, none, 0⟩⟩

/-- Read a block of the block list by index, defaulting out of range. -/
def blocksGet (blocks : List Block) (i : Nat) : Block :=
  (blocks.get? i).getD default

/-- Read a group of the group list by index, defaulting out of range. -/
def groupsGet (groups : List DiffGroup) (i : Nat) : DiffGroup :=
  (groups.get? i).getD default

/-! ### Deletion block collection (WikEdDiff.getDelBlocks, diff.py lines
1577 to 1625) -/

/-- Inner loop of getDelBlocks collecting one maximal unmatched run of
the old text: counts tokens and concatenates their text while the link is
absent, returning the count, the text, and the index after the run. -/
def collectDelRun (oldT : Array Tok) :
    Nat → Option Nat → Nat × String × Option Nat
  | 0, j => (0, "", j)
  | _ + 1, none => (0, "", none)
  | fuel + 1, some j =>
    let t := getTok oldT j
    if t.link = none then
      let r := collectDelRun oldT fuel t.next
      (r.1 + 1, t.token ++ r.2.1, r.2.2)
    else
      (0, "", some j)

/-- Inner loop of getDelBlocks skipping one matched ("=") run: while the
old token links to the tracked new index, advance both sides. -/
def skipSameRun (newT oldT : Array Tok) :
    Nat → Option Nat → Option Nat → Option Nat
  | 0, _, j => j
  | fuel + 1, some i, some j =>
    if (getTok oldT j).link = some i then
      skipSameRun newT oldT fuel (getTok newT i).next (getTok oldT j).next
    else
      some j
  | _ + 1, none, j => j
  | _ + 1, _, none => none

/-- The "-" block that getDelBlocks appends for a run (diff.py lines 1598
to 1615): words is the literal zero of the source, not a word count of
the run text. -/
def mkDelBlock (oldT : Array Tok) (oldStart : Nat) (count : Nat)
    (text : String) : Block :=
  { oldBlock := none
    newBlock := none
    oldNumber := (getTok oldT oldStart).number.map (fun n => (n : Int))
    newNumber := none
    oldStart := some oldStart
    count := some count
    unique := some false
    words := 0
    chars := text.length
    type := BType.del
    sect := none
    group := none
    fixed := some false
    moved := none
    text := text }

/-- Outer loop of getDelBlocks over the old arena; returns the list of
"-" blocks appended to the block table. -/
def getDelBlocksGo (newT oldT : Array Tok) :
    Nat → Option Nat → List Block
  | 0, _ => []
  | _ + 1, none => []
  | fuel + 1, some j =>
    let r := collectDelRun oldT (oldT.size + 1) (some j)
    let firstBlocks :=
      if r.1 ≠ 0 then [mkDelBlock oldT j r.1 r.2.1] else []
    match r.2.2 with
    | none => firstBlocks
    | some j2 =>
      let i := (getTok oldT j2).link
      let j3 := skipSameRun newT oldT (oldT.size + newT.size + 1) i (some j2)
      firstBlocks ++ getDelBlocksGo newT oldT fuel j3

/-- WikEdDiff.getDelBlocks: collect the unmatched runs of the old text as
"-" blocks. -/
def getDelBlocks (newText oldText : TextArena) : List Block :=
  getDelBlocksGo newText.tokens oldText.tokens
    (oldText.tokens.size + 1) oldText.first

/-! ### Insertion block collection (WikEdDiff.getInsBlocks, diff.py lines
1735 to 1783) -/

/-- Inner loop of getInsBlocks jumping over one linked (matched) run. -/
def skipLinkedRun (newT : Array Tok) : Nat → Option Nat → Option Nat
  | 0, i => i
  | _ + 1, none => none
  | fuel + 1, some i =>
    if (getTok newT i).link ≠ none then
      skipLinkedRun newT fuel (getTok newT i).next
    else
      some i

/-- Inner loop of getInsBlocks collecting one maximal unmatched run of
the new text. -/
def collectInsRun (newT : Array Tok) :
    Nat → Option Nat → Nat × String × Option Nat
  | 0, i => (0, "", i)
  | _ + 1, none => (0, "", none)
  | fuel + 1, some i =>
    let t := getTok newT i
    if t.link = none then
      let r := collectInsRun newT fuel t.next
      (r.1 + 1, t.token ++ r.2.1, r.2.2)
    else
      (0, "", some i)

/-- The "+" block that getInsBlocks appends for a run (diff.py lines 1761
to 1777): words is the literal zero of the source. -/
def mkInsBlock (newT : Array Tok) (iStart : Nat) (count : Nat)
    (text : String) : Block :=
  { oldBlock := none
    newBlock := none
    oldNumber := none
    newNumber := (getTok newT iStart).number.map (fun n => (n : Int))
    oldStart := none
    count := some count
    unique := some false
    words := 0
    chars := text.length
    type := BType.ins
    sect := none
    group := none
    fixed := some false
    moved := none
    text := text }

/-- Outer loop of getInsBlocks over the new arena; returns the list of
"+" blocks appended to the block table. -/
def getInsBlocksGo (newT : Array Tok) : Nat → Option Nat → List Block
  | 0, _ => []
  | _ + 1, none => []
  | fuel + 1, some i =>
    let i1 := skipLinkedRun newT (newT.size + 1) (some i)
    match i1 with
    | none => []
    | some iStart =>
      let r := collectInsRun newT (newT.size + 1) (some iStart)
      mkInsBlock newT iStart r.1 r.2.1 :: getInsBlocksGo newT fuel r.2.2

/-- WikEdDiff.getInsBlocks: collect the unmatched runs of the new text as
"+" blocks. -/
def getInsBlocks (newText : TextArena) : List Block :=
  getInsBlocksGo newText.tokens (newText.tokens.size + 1) newText.first

/-! ### Plain text projection and unit tests (WikEdDiff.getDiffPlainText,
diff.py lines 2436 to 2472, and WikEdDiff.unitTests, lines 2482 to 2506) -/

/-- The version selector of getDiffPlainText. -/
inductive Version where
  | old
  | new
  deriving DecidableEq, Repr

/-- One step of the getDiffPlainText fold, the if chain of the source
translated branch for branch. -/
def getDiffPlainTextStep (version : Version) (output : String)
    (f : Fragment) : String :=
  match f.type with
  | FType.same =>
    if f.color ≠ 0 then
      if version ≠ Version.old then output ++ f.text else output
    else
      output ++ f.text
  | FType.del =>
    if version = Version.old then
      if version = Version.new ∨ f.color = 0 then output ++ f.text
      else output
    else output
  | FType.ins =>
    if version = Version.new then output ++ f.text else output
  | FType.markLeft =>
    if version = Version.old then output ++ f.text else output
  | FType.markRight =>
    if version = Version.old then output ++ f.text else output
  | _ => output

/-- WikEdDiff.getDiffPlainText: project the fragment stream onto one
version. -/
def getDiffPlainText (fragments : List Fragment) (version : Version) :
    String :=
  fragments.foldl (getDiffPlainTextStep version) ""

/-- The exception raised by WikEdDiff.unitTests on a mismatch: the
logger.debug argument on diff.py line 2491 (and 2503) names the variable
text, which is not defined in the scope of unitTests, so building the
argument raises NameError before the log call. -/
inductive PyError where
  | nameError
  deriving DecidableEq, Repr

/-- WikEdDiff.unitTests of the packaged engine: compare the plain text
projections with the version texts.  On a mismatch the source assigns
"self.error = False" (diff.py lines 2490 and 2502) and then evaluates
"'new text:\n' + text" with an undefined name, raising NameError; the
function returns the final error flag and the raised exception, if any.
The error argument is the incoming flag (False after the reset at the
top of diff). -/
def unitTests (oldTextText newTextText : String)
    (fragments : List Fragment) (error : Bool) : Bool × Option PyError :=
  let diffNew := getDiffPlainText fragments Version.new
  if diffNew ≠ newTextText then
    (false, some PyError.nameError)
  else
    let diffOld := getDiffPlainText fragments Version.old
    if diffOld ≠ oldTextText then
      (false, some PyError.nameError)
    else
      (error, none)

/-! ### Gap slider, upward scan (WikEdDiff.slideGaps, diff.py lines 637
to 661) -/

/-- The scan loop of the upward slide test: walk front (matched side) and
back (gap tail) upwards while the front token is linked and equals the
back token.  The first branch is the dead "is True" comparison of the
source; the second branch updates the stop position whenever the object
identity comparison of the two slideBorder searches is unequal, which
holds exactly when at least one of the two searches found a match. -/
def findFrontStopGo (tokens : Array Tok) (gapFrontBlankTest : Bool) :
    Nat → Option Nat → Option Nat → Option Nat → Option Nat
  | 0, _, _, frontStop => frontStop
  | fuel + 1, some front, some back, frontStop =>
    let tf := getTok tokens front
    let tb := getTok tokens back
    if tf.link ≠ none ∧ tf.token = tb.token then
      if pyMatchIsTrueLiteral (pyDollarClassSearch isSlideStopChar tf.token) then
        some front
      else
        let frontStop' :=
          if pyMatchNeq (pyDollarClassSearch isBlankChar tf.token)
              gapFrontBlankTest then
            some front
          else frontStop
        findFrontStopGo tokens gapFrontBlankTest fuel tf.prev tb.prev frontStop'
    else frontStop
  | _ + 1, _, _, frontStop => frontStop

/-- The "Test slide up" part of slideGaps for one gap: compute the stop
position frontStop for the gap [gapFront .. gapBack]. -/
def findFrontStop (tokens : Array Tok) (gapFront gapBack : Nat) :
    Option Nat :=
  let front := (getTok tokens gapFront).prev
  let gapFrontBlankTest :=
    pyDollarClassSearch isBlankChar (getTok tokens gapFront).token
  let frontStop := front
  if (getTok tokens gapBack).link = none then
    findFrontStopGo tokens gapFrontBlankTest (tokens.size + 1) front
      (some gapBack) frontStop
  else frontStop

/-- Modelled from the spec: the same upward scan with the slide stop test
taken semantically, as section 4.3 and the open questions note of the
specification require ("stop when the token matches the slideStop
pattern"); this is the behavior the source comment "Stop at line break"
announces but the literal code never reaches. -/
def findFrontStopGoIntended (tokens : Array Tok) (gapFrontBlankTest : Bool) :
    Nat → Option Nat → Option Nat → Option Nat → Option Nat
  | 0, _, _, frontStop => frontStop
  | fuel + 1, some front, some back, frontStop =>
    let tf := getTok tokens front
    let tb := getTok tokens back
    if tf.link ≠ none ∧ tf.token = tb.token then
      if pyDollarClassSearch isSlideStopChar tf.token then
        some front
      else
        let frontStop' :=
          if pyMatchNeq (pyDollarClassSearch isBlankChar tf.token)
              gapFrontBlankTest then
            some front
          else frontStop
        findFrontStopGoIntended tokens gapFrontBlankTest fuel tf.prev tb.prev
          frontStop'
    else frontStop
  | _ + 1, _, _, frontStop => frontStop

/-- Modelled from the spec: findFrontStop with the semantic slide stop
test. -/
def findFrontStopIntended (tokens : Array Tok) (gapFront gapBack : Nat) :
    Option Nat :=
  let front := (getTok tokens gapFront).prev
  let gapFrontBlankTest :=
    pyDollarClassSearch isBlankChar (getTok tokens gapFront).token
  let frontStop := front
  if (getTok tokens gapBack).link = none then
    findFrontStopGoIntended tokens gapFrontBlankTest (tokens.size + 1) front
      (some gapBack) frontStop
  else frontStop

/-- A concrete arena exercising the upward slide scan: tokens
"a", newline, "a" are matched, the gap holds the unmatched tokens
newline and "a", and a matched token "x" closes the gap on the right.
The scan for the gap [3 .. 4] passes over the matched newline token at
index 1. -/
def slideExTokens : Array Tok :=
  #[ ⟨"a", none, some 1, some 0, none, false⟩,
     ⟨"\n", some 0, some 2, some 1, none, false⟩,
     ⟨"a", some 1, some 3, some 2, none, false⟩,
     ⟨"\n", some 2, some 4, none, none, false⟩,
     ⟨"a", some 3, some 5, none, none, false⟩,
     ⟨"x", some 4, none, some 5, none, false⟩ ]

/-! ### Symbol table linker (WikEdDiff.calculateDiff, diff.py lines 706
to 1097) -/

/-- Split levels of the engine. -/
inductive Level where
  | paragraph
  | line
  | sentence
  | chunk
  | word
  | character
  deriving DecidableEq, Repr

/-- The two word counting regular expressions of config.py enter the
embedding as functions from a string to its list of matches, which is
the only way the engine consumes them (finditer in the unique word test
and in wordParse). -/
structure RegExpEnv where
  countWords : String → List String
  countChunks : String → List String

/-- The configuration options consumed by calculateDiff. -/
structure WikConfig where
  blockMinLength : Nat
  recursionMax : Nat
  repeatedDiff : Bool
  recursiveDiff : Bool

/-- The default configuration values of WikEdDiffConfig. -/
def defaultWikConfig : WikConfig :=
  { blockMinLength := 3
    recursionMax := 10
    repeatedDiff := true
    recursiveDiff := true }

/-- A symbol table entry (data_structures.Symbol; the source name Symbol is taken in Lean). -/
structure DiffSymbol where
  newCount : Nat
  oldCount : Nat
  newToken : Option Nat
  oldToken : Option Nat
  deriving DecidableEq, Repr

instance : Inhabited DiffSymbol := ⟨⟨0, 0, none, none⟩⟩

/-- The symbol table (data_structures.Symbols): entry list, hash table
from token text to entry index, and the flag recording that at least one
unique token pair has been linked. -/
structure SymbolsTable where
  token : List DiffSymbol
  hashTable : List (String × Nat)
  linked : Bool
  deriving Repr

/-- A fresh empty symbol table. -/
def emptySymbols : SymbolsTable :=
  { token := [], hashTable := [], linked := false }

/-- The engine state threaded through calculateDiff: the two version
arenas, the persistent symbol table, and the persistent linked region
border lists (WikEdDiff fields symbols, bordersDown, bordersUp). -/
structure GState where
  newText : TextArena
  oldText : TextArena
  symbols : SymbolsTable
  bordersDown : List (Nat × Nat)
  bordersUp : List (Nat × Nat)

/-- Pass 1 symbol table update for one unmatched new text token (diff.py
lines 752 to 768): a fresh entry on an unseen token text, otherwise an
increment of the new text counter. -/
def addSymbolNew (sy : SymbolsTable) (t : String) (i : Nat) : SymbolsTable :=
  match sy.hashTable.lookup t with
  | none =>
    { sy with
      hashTable := sy.hashTable ++ [(t, sy.token.length)]
      token := sy.token ++
        [{ newCount := 1, oldCount := 0, newToken := some i, oldToken := none }] }
  | some idx =>
    let e := (sy.token.get? idx).getD default
    let e2 := { e with newCount := e.newCount + 1 }
    { sy with token := sy.token.set idx e2 }

/-- Pass 2 symbol table update for one unmatched old text token (diff.py
lines 787 to 806): a fresh entry on an unseen token text, otherwise an
increment of the old text counter together with the old token index. -/
def addSymbolOld (sy : SymbolsTable) (t : String) (j : Nat) : SymbolsTable :=
  match sy.hashTable.lookup t with
  | none =>
    { sy with
      hashTable := sy.hashTable ++ [(t, sy.token.length)]
      token := sy.token ++
        [{ newCount := 0, oldCount := 1, newToken := none, oldToken := some j }] }
  | some idx =>
    let e := (sy.token.get? idx).getD default
    let e2 := { e with oldCount := e.oldCount + 1, oldToken := some j }
    { sy with token := sy.token.set idx e2 }

/-- Pass 1 of calculateDiff (diff.py lines 749 to 778): walk the new
text tokens from the start index, entering unmatched tokens into the
symbol table; on a matched token the walk stops when recursing and skips
otherwise.  The walk direction follows the up flag. -/
def pass1Go (up : Bool) (recursionLevel : Nat) (newTokens : Array Tok) :
    Nat → Option Nat → SymbolsTable → SymbolsTable
  | 0, _, sy => sy
  | _ + 1, none, sy => sy
  | fuel + 1, some i, sy =>
    let t := getTok newTokens i
    if t.link = none then
      pass1Go up recursionLevel newTokens fuel
        (if up then t.prev else t.next) (addSymbolNew sy t.token i)
    else if recursionLevel > 0 then
      sy
    else
      pass1Go up recursionLevel newTokens fuel
        (if up then t.prev else t.next) sy

/-- Pass 2 of calculateDiff (diff.py lines 784 to 816), the old text
mirror of pass 1. -/
def pass2Go (up : Bool) (recursionLevel : Nat) (oldTokens : Array Tok) :
    Nat → Option Nat → SymbolsTable → SymbolsTable
  | 0, _, sy => sy
  | _ + 1, none, sy => sy
  | fuel + 1, some j, sy =>
    let t := getTok oldTokens j
    if t.link = none then
      pass2Go up recursionLevel oldTokens fuel
        (if up then t.prev else t.next) (addSymbolOld sy t.token j)
    else if recursionLevel > 0 then
      sy
    else
      pass2Go up recursionLevel oldTokens fuel
        (if up then t.prev else t.next) sy

/-- The state transformed by pass 3: both arenas, the linked flag, and
the working linked region border lists of the invocation. -/
structure Pass3State where
  newTokens : Array Tok
  oldTokens : Array Tok
  linked : Bool
  bordersDown : List (Nat × Nat)
  bordersUp : List (Nat × Nat)

/-- Pass 3 of calculateDiff for one symbol table entry (diff.py lines
823 to 874): when the token occurs exactly once in both versions and the
new token is still unmatched, the pair is linked unless the blankOnlyToken
search fails (spaces are not used as unique markers); on a link the pair
is recorded in both border lists and, at recursion level zero, the unique
word test marks both tokens.  Entries whose token fields are absent
cannot arise from passes 1 and 2 with the matching counts and are
skipped. -/
def pass3Step (env : RegExpEnv) (blockMinLength : Nat) (level : Level)
    (recursionLevel : Nat) (newWords oldWords : List (String × Nat))
    (st : Pass3State) (sym : DiffSymbol) : Pass3State :=
  if sym.newCount = 1 ∧ sym.oldCount = 1 then
    match sym.newToken, sym.oldToken with
    | some newToken, some oldToken =>
      let newTokenObj := getTok st.newTokens newToken
      if newTokenObj.link = none then
        if blankOnlyTokenSearch newTokenObj.token then
          let newTokens := setLink st.newTokens newToken (some oldToken)
          let oldTokens := setLink st.oldTokens oldToken (some newToken)
          let uniqueFlag :=
            if recursionLevel = 0 then
              if level = Level.character then
                true
              else
                let words := env.countWords newTokenObj.token ++
                  env.countChunks newTokenObj.token
                if blockMinLength ≤ words.length then
                  true
                else
                  words.any (fun w =>
                    (oldWords.lookup w) = some 1 ∧ (newWords.lookup w) = some 1)
            else false
          let newTokens :=
            if uniqueFlag then setUnique newTokens newToken true else newTokens
          let oldTokens :=
            if uniqueFlag then setUnique oldTokens oldToken true else oldTokens
          { newTokens := newTokens
            oldTokens := oldTokens
            linked := true
            bordersDown := st.bordersDown ++ [(newToken, oldToken)]
            bordersUp := st.bordersUp ++ [(newToken, oldToken)] }
        else st
      else st
    | _, _ => st
  else st

/-- Pass 3 of calculateDiff: fold the entry step over the symbol table
list. -/
def pass3Run (env : RegExpEnv) (blockMinLength : Nat) (level : Level)
    (recursionLevel : Nat) (newWords oldWords : List (String × Nat))
    (syms : List DiffSymbol) (st : Pass3State) : Pass3State :=
  syms.foldl (pass3Step env blockMinLength level recursionLevel newWords oldWords) st

/-- Pass 4 inner loop for one border (diff.py lines 889 to 916): walk
down from the border while both sides are unmatched; link equal tokens;
on a mismatch record the last matched pair for the next refinement level
and stop. -/
def pass4Go (newT oldT : Array Tok) :
    Nat → Nat → Nat → Option Nat → Option Nat →
    Array Tok × Array Tok × Option (Nat × Nat)
  | 0, _, _, _, _ => (newT, oldT, none)
  | fuel + 1, iMatch, jMatch, some i, some j =>
    if (getTok newT i).link = none ∧ (getTok oldT j).link = none then
      if (getTok newT i).token = (getTok oldT j).token then
        pass4Go (setLink newT i (some j)) (setLink oldT j (some i)) fuel i j
          (getTok newT i).next (getTok oldT j).next
      else
        (newT, oldT, some (iMatch, jMatch))
    else
      (newT, oldT, none)
  | _ + 1, _, _, _, _ => (newT, oldT, none)

/-- Pass 4 of calculateDiff (diff.py lines 883 to 916): expand every
linked region border downwards, collecting the mismatch borders. -/
def pass4All (newT oldT : Array Tok) (borders : List (Nat × Nat)) :
    Array Tok × Array Tok × List (Nat × Nat) :=
  borders.foldl
    (fun acc b =>
      let r := pass4Go acc.1 acc.2.1 (acc.1.size + 1) b.1 b.2
        (getTok acc.1 b.1).next (getTok acc.2.1 b.2).next
      (r.1, r.2.1, acc.2.2 ++ (match r.2.2 with
        | some p => [p]
        | none => [])))
    (newT, oldT, [])

/-- Pass 5 inner loop for one border (diff.py lines 928 to 955), the
upward mirror of pass 4. -/
def pass5Go (newT oldT : Array Tok) :
    Nat → Nat → Nat → Option Nat → Option Nat →
    Array Tok × Array Tok × Option (Nat × Nat)
  | 0, _, _, _, _ => (newT, oldT, none)
  | fuel + 1, iMatch, jMatch, some i, some j =>
    if (getTok newT i).link = none ∧ (getTok oldT j).link = none then
      if (getTok newT i).token = (getTok oldT j).token then
        pass5Go (setLink newT i (some j)) (setLink oldT j (some i)) fuel i j
          (getTok newT i).prev (getTok oldT j).prev
      else
        (newT, oldT, some (iMatch, jMatch))
    else
      (newT, oldT, none)
  | _ + 1, _, _, _, _ => (newT, oldT, none)

/-- Pass 5 of calculateDiff (diff.py lines 922 to 955): expand every
linked region border upwards, collecting the mismatch borders. -/
def pass5All (newT oldT : Array Tok) (borders : List (Nat × Nat)) :
    Array Tok × Array Tok × List (Nat × Nat) :=
  borders.foldl
    (fun acc b =>
      let r := pass5Go acc.1 acc.2.1 (acc.1.size + 1) b.1 b.2
        (getTok acc.1 b.1).prev (getTok acc.2.1 b.2).prev
      (r.1, r.2.1, acc.2.2 ++ (match r.2.2 with
        | some p => [p]
        | none => [])))
    (newT, oldT, [])

/-- The common loop shape of the two boundary extensions of
calculateDiff (diff.py lines 964 to 986 and 988 to 1010): walk both
arenas along the step field (next for the start extension, prev for the
end one), link tokens while both are unmatched and equal, and remember
the last linked pair.  The boundary is treated as a virtual match
because the walk starts at the arena boundary unconditionally. -/
def extendLoopGo (step : Tok → Option Nat) (newT oldT : Array Tok) :
    Nat → Option Nat → Option Nat → Option (Nat × Nat) →
    Array Tok × Array Tok × Option (Nat × Nat)
  | 0, _, _, m => (newT, oldT, m)
  | fuel + 1, some i, some j, m =>
    let ti := getTok newT i
    let tj := getTok oldT j
    if ti.link = none ∧ tj.link = none ∧ ti.token = tj.token then
      extendLoopGo step (setLink newT i (some j)) (setLink oldT j (some i))
        fuel (step ti) (step tj) (some (i, j))
    else
      (newT, oldT, m)
  | _ + 1, _, _, m => (newT, oldT, m)

/-- The start extension of calculateDiff (diff.py lines 964 to 986): run
the loop along next from the arena first indices. -/
def extendStart (newT oldT : Array Tok) (newFirst oldFirst : Option Nat) :
    Array Tok × Array Tok × Option (Nat × Nat) :=
  extendLoopGo Tok.next newT oldT (newT.size + 1) newFirst oldFirst none

/-- The end extension of calculateDiff (diff.py lines 988 to 1010): run
the loop along prev from the arena last indices. -/
def extendEnd (newT oldT : Array Tok) (newLast oldLast : Option Nat) :
    Array Tok × Array Tok × Option (Nat × Nat) :=
  extendLoopGo Tok.prev newT oldT (newT.size + 1) newLast oldLast none

/-- The loop condition of the boundary extensions as a boolean on an
index pair: both tokens unmatched and equal. -/
def extCond (newT oldT : Array Tok) (pq : Nat × Nat) : Bool :=
  decide ((getTok newT pq.1).link = none ∧ (getTok oldT pq.2).link = none ∧
    (getTok newT pq.1).token = (getTok oldT pq.2).token)

/-- What a boundary extension does, stated against the initial arenas:
along the two walks, the maximal prefix of index pairs that are pairwise
equal and unmatched (the takeWhile prefix under extCond) is exactly the
set of pairs that get linked to each other, and every position outside
that prefix keeps its token unchanged. -/
def extLinksSpec (step : Tok → Option Nat) (newT oldT : Array Tok)
    (fuel : Nat) (i j : Option Nat)
    (r : Array Tok × Array Tok × Option (Nat × Nat)) : Prop :=
  (∀ pq ∈ ((tokenWalk newT step fuel i).zip
      (tokenWalk oldT step fuel j)).takeWhile (extCond newT oldT),
    (getTok r.1 pq.1).link = some pq.2 ∧
    (getTok r.2.1 pq.2).link = some pq.1) ∧
  (∀ p, p ∉ (((tokenWalk newT step fuel i).zip
      (tokenWalk oldT step fuel j)).takeWhile (extCond newT oldT)).map
        Prod.fst →
    getTok r.1 p = getTok newT p) ∧
  (∀ q, q ∉ (((tokenWalk newT step fuel i).zip
      (tokenWalk oldT step fuel j)).takeWhile (extCond newT oldT)).map
        Prod.snd →
    getTok r.2.1 q = getTok oldT q)

/-- The result of the non recursive core of one calculateDiff
invocation. -/
structure CoreResult where
  g : GState
  bordersDownNext : List (Nat × Nat)
  bordersUpNext : List (Nat × Nat)
  linked : Bool

/-- Passes 1 to 3 of one calculateDiff invocation (diff.py lines 729 to
874): choose the symbol table and border lists (persistent at recursion
level zero when not repeating, fresh and empty otherwise), run passes 1
to 3, and return the symbol table after passes 1 and 2 together with the
pass 3 state (arenas, linked flag, working border lists). -/
def corePasses (cfg : WikConfig) (env : RegExpEnv) (level : Level)
    (repeating : Bool) (newStart oldStart : Option Nat) (up : Bool)
    (recursionLevel : Nat) (g : GState) : SymbolsTable × Pass3State :=
  let top := recursionLevel = 0 ∧ repeating = false
  let symbols0 := if top then g.symbols else emptySymbols
  let bordersDown0 := if top then g.bordersDown else []
  let bordersUp0 := if top then g.bordersUp else []
  let symbols1 := pass1Go up recursionLevel g.newText.tokens
    (g.newText.tokens.size + 1) newStart symbols0
  let symbols2 := pass2Go up recursionLevel g.oldText.tokens
    (g.oldText.tokens.size + 1) oldStart symbols1
  (symbols2,
    pass3Run env cfg.blockMinLength level recursionLevel
      g.newText.words g.oldText.words symbols2.token
      { newTokens := g.newText.tokens
        oldTokens := g.oldText.tokens
        linked := symbols2.linked
        bordersDown := bordersDown0
        bordersUp := bordersUp0 })

/-- The non recursive core of one calculateDiff invocation: the three
symbol passes and, if the linked flag of the symbol table in use is set
(the persistent object table at the top level, so possibly by an
earlier invocation of the same diff run), passes 4 and 5, the start and
end extension (top level only: recursion level zero and not repeating,
called the full text diff in the source comment), and the border list
save (replacing the persistent lists at the top level, merging into
them otherwise, diff.py lines 1012 to 1020). -/
def calcCore (cfg : WikConfig) (env : RegExpEnv) (level : Level)
    (repeating : Bool) (newStart oldStart : Option Nat) (up : Bool)
    (recursionLevel : Nat) (g : GState) : CoreResult :=
  let top := recursionLevel = 0 ∧ repeating = false
  let sp := corePasses cfg env level repeating newStart oldStart up
    recursionLevel g
  let symbols2 := sp.1
  let p3 := sp.2
  if p3.linked then
    let r4 := pass4All p3.newTokens p3.oldTokens p3.bordersDown
    let r5 := pass5All r4.1 r4.2.1 p3.bordersUp
    let ext :=
      if top then
        let es := extendStart r5.1 r5.2.1 g.newText.first g.oldText.first
        let ee := extendEnd es.1 es.2.1 g.newText.last g.oldText.last
        (ee.1, ee.2.1,
          r4.2.2 ++ (match es.2.2 with | some p => [p] | none => []),
          r5.2.2 ++ (match ee.2.2 with | some p => [p] | none => []))
      else
        (r5.1, r5.2.1, r4.2.2, r5.2.2)
    let bordersDownNext := ext.2.2.1
    let bordersUpNext := ext.2.2.2
    { g :=
        { newText := { g.newText with tokens := ext.1 }
          oldText := { g.oldText with tokens := ext.2.1 }
          symbols := if top then { symbols2 with linked := true } else g.symbols
          bordersDown :=
            if top then bordersDownNext else g.bordersDown ++ bordersDownNext
          bordersUp :=
            if top then bordersUpNext else g.bordersUp ++ bordersUpNext }
      bordersDownNext := bordersDownNext
      bordersUpNext := bordersUpNext
      linked := true }
  else
    { g :=
        { newText := { g.newText with tokens := p3.newTokens }
          oldText := { g.oldText with tokens := p3.oldTokens }
          symbols := if top then symbols2 else g.symbols
          bordersDown := g.bordersDown
          bordersUp := g.bordersUp }
      bordersDownNext := []
      bordersUpNext := []
      linked := false }

mutual

/-- WikEdDiff.calculateDiff: the non recursive core followed by, when at
least one unique token pair has been linked, the repeat with an empty
symbol table (diff.py lines 1028 to 1030) and the bounded gap recursion
downwards and upwards (diff.py lines 1038 to 1089).  Beside the updated
state the function returns the nesting depth of gap recursions made by
the call: a recursive call into a gap contributes one plus the depth of
the child, the repeat contributes its own depth.  The recursion into
gaps happens only when recursion is enabled and the recursion level is
strictly below recursionMax; the definition is total (the termination
measure is exactly that guard, together with the one shot nature of the
repeat flag). -/
def calculateDiff (cfg : WikConfig) (env : RegExpEnv) (level : Level)
    (recurse repeating : Bool) (newStart oldStart : Option Nat) (up : Bool)
    (recursionLevel : Nat) (g : GState) : GState × Nat :=
  let core := calcCore cfg env level repeating newStart oldStart up
    recursionLevel g
  if core.linked then
    let repRes :=
      if hrep : repeating = false ∧ cfg.repeatedDiff = true then
        calculateDiff cfg env level recurse true newStart oldStart up
          recursionLevel core.g
      else (core.g, 0)
    if h : recurse ∧ cfg.recursiveDiff ∧ recursionLevel < cfg.recursionMax then
      let downRes := recurseGapBorders cfg env level recurse false
        recursionLevel h.2.2 core.bordersDownNext repRes.1
      let upRes := recurseGapBorders cfg env level recurse true
        recursionLevel h.2.2 core.bordersUpNext downRes.1
      (upRes.1, max repRes.2 (max downRes.2 upRes.2))
    else
      repRes
  else
    (core.g, 0)
  termination_by
    (2 * (cfg.recursionMax + 1 - recursionLevel) +
      (if repeating then 0 else 1), 0)
  decreasing_by
    · apply Prod.Lex.left
      simp only [hrep.1]
      simp
    · apply Prod.Lex.left
      have hlt : recursionLevel < cfg.recursionMax := h.2.2
      cases repeating <;> simp <;> omega
    · apply Prod.Lex.left
      have hlt : recursionLevel < cfg.recursionMax := h.2.2
      cases repeating <;> simp <;> omega

/-- The gap recursion loops of calculateDiff (diff.py lines 1047 to
1089): for every border of the given list, step into the gap (next for
the downward direction, prev for the upward one) and, when both sides
are unmatched, recurse with a fresh local symbol table one level
deeper.  Returns the updated state and the largest nesting depth of gap
recursions among the calls made. -/
def recurseGapBorders (cfg : WikConfig) (env : RegExpEnv) (level : Level)
    (recurse : Bool) (up : Bool) (recursionLevel : Nat)
    (h : recursionLevel < cfg.recursionMax)
    (borders : List (Nat × Nat)) (g : GState) : GState × Nat :=
  match borders with
  | [] => (g, 0)
  | b :: rest =>
    let i := if up then (getTok g.newText.tokens b.1).prev
      else (getTok g.newText.tokens b.1).next
    let j := if up then (getTok g.oldText.tokens b.2).prev
      else (getTok g.oldText.tokens b.2).next
    let headRes : GState × Nat :=
      match i, j with
      | some i', some j' =>
        if (getTok g.newText.tokens i').link = none ∧
            (getTok g.oldText.tokens j').link = none then
          let r := calculateDiff cfg env level recurse false (some i')
            (some j') up (recursionLevel + 1) g
          (r.1, r.2 + 1)
        else (g, 0)
      | _, _ => (g, 0)
    let restRes := recurseGapBorders cfg env level recurse up recursionLevel h
      rest headRes.1
    (restRes.1, max headRes.2 restRes.2)
  termination_by
    (2 * (cfg.recursionMax + 1 - recursionLevel) - 1, borders.length)
  decreasing_by
    · have heq : (2 * (cfg.recursionMax + 1 - (recursionLevel + 1)) +
          if False then 0 else 1) =
          2 * (cfg.recursionMax + 1 - recursionLevel) - 1 := by
        simp
        omega
      rw [heq]
      apply Prod.Lex.right
      simp
    · apply Prod.Lex.right
      simp

end

/-! ### Fragment emission (WikEdDiff.getDiffFragments, diff.py lines 2016
to 2107) -/

/-- Stable insertion of one element into an already processed list:
walk past every element the comparison accepts, so an element inserted
later lands after equal keys.  Together with the fold below this is the
stable sort that Python sorted performs (observably equal for a total
preorder comparison). -/
def insertStable (le : α → α → Bool) (x : α) : List α → List α
  | [] => [x]
  | y :: ys => if le y x then y :: insertStable le x ys else x :: y :: ys

/-- Stable sort by a boolean comparison (Python sorted with a key). -/
def stableSortBy (le : α → α → Bool) (l : List α) : List α :=
  l.foldl (fun acc x => insertStable le x acc) []

/-- The fragment a block contributes inside one group (diff.py lines 2044
to 2076): "=", "-", "+" blocks carry their text and the group color; a
"|" mark block synthesizes the mark text from the "=" and "-" blocks of
the moved group and points left or right depending on the relative block
positions. -/
def blockFragment (blocks : List Block) (groups : List DiffGroup)
    (color : Nat) (blockStart : Nat) (idx : Nat) : Fragment :=
  let b := blocksGet blocks idx
  match b.type with
  | BType.same => ⟨b.text, color, FType.same⟩
  | BType.del => ⟨b.text, color, FType.del⟩
  | BType.ins => ⟨b.text, color, FType.ins⟩
  | BType.mark =>
    let movedGroup := groupsGet groups (b.moved.getD 0)
    let markText :=
      ((List.range' movedGroup.blockStart
          (movedGroup.blockEnd + 1 - movedGroup.blockStart)).map
        (fun i =>
          let mb := blocksGet blocks i
          if mb.type = BType.same ∨ mb.type = BType.del then mb.text
          else "")).foldl (· ++ ·) ""
    ⟨markText, movedGroup.color,
      if movedGroup.blockStart < blockStart then FType.markLeft
      else FType.markRight⟩

/-- The fragments one group contributes to the stream (diff.py lines 2026
to 2084): a moved block start when the group color is not zero (pointing
left when the group it was moved from sits before the group of the first
block), the block fragments, and a moved block end closing the color. -/
def groupFragments (blocks : List Block) (groups : List DiffGroup)
    (g : DiffGroup) : List Fragment :=
  let color := g.color
  let openFrags : List Fragment :=
    if color ≠ 0 then
      [⟨"", color,
        if (g.movedFrom.getD 0) < ((blocksGet blocks g.blockStart).group.getD 0)
        then FType.moveOpenLeft
        else FType.moveOpenRight⟩]
    else []
  let body := (List.range' g.blockStart (g.blockEnd + 1 - g.blockStart)).map
    (blockFragment blocks groups color g.blockStart)
  let closeFrags : List Fragment :=
    if color ≠ 0 then [⟨"", color, FType.moveClose⟩] else []
  openFrags ++ body ++ closeFrags

/-- The join loop of getDiffFragments (diff.py lines 2087 to 2099):
consecutive fragments of the same type and color are merged when both
texts are nonempty. -/
def mergeLoop (prev : Fragment) : List Fragment → List Fragment
  | [] => [prev]
  | f :: fs =>
    if f.type = prev.type ∧ f.color = prev.color ∧
        f.text ≠ "" ∧ prev.text ≠ "" then
      mergeLoop { prev with text := prev.text ++ f.text } fs
    else
      prev :: mergeLoop f fs

/-- Merge consecutive equal typed fragments of a stream. -/
def mergeFragments : List Fragment → List Fragment
  | [] => []
  | f :: fs => mergeLoop f fs

/-- WikEdDiff.getDiffFragments: sort a shallow copy of the groups by
blockStart, emit the fragments of every group, merge consecutive equal
typed fragments, and enclose the stream in the container and fragment
wrappers (diff.py lines 2102 to 2105). -/
def getDiffFragments (blocks : List Block) (groups : List DiffGroup) :
    List Fragment :=
  let groupsSort := stableSortBy (fun a b => a.blockStart ≤ b.blockStart) groups
  let inner := (groupsSort.map (groupFragments blocks groups)).flatten
  let merged := mergeFragments inner
  ⟨"", 0, FType.containerStart⟩ :: ⟨"", 0, FType.fragStart⟩ ::
    (merged ++ [⟨"", 0, FType.fragEnd⟩, ⟨"", 0, FType.containerEnd⟩])

/-- The boolean predicate selecting moved block end fragments of a given
color. -/
def isCloseC (c : Nat) (f : Fragment) : Bool :=
  decide (f.type = FType.moveClose ∧ f.color = c)

/-- The boolean predicate selecting groups that carry a given nonzero
moved color. -/
def groupColorHit (c : Nat) (g : DiffGroup) : Bool :=
  decide (g.color ≠ 0 ∧ g.color = c)

/-- The order relation used to state that a moved block end of a color
never precedes a moved block start of the same color. -/
def noCloseBeforeOpen (c : Nat) (a b : Fragment) : Prop :=
  ¬ (a.type = FType.moveClose ∧ a.color = c ∧
     b.type.isMoveOpen = true ∧ b.color = c)

/-! ### Concrete instances used by witnesses and counterexamples -/

/-- True on word characters of the countWords pattern restricted to
ASCII input: letters, digits, underscore. -/
def isAsciiWordChar (c : Char) : Bool :=
  c.isAlphanum || c = Char.ofNat 95

/-- Maximal runs of characters satisfying a predicate. -/
def charRuns (p : Char → Bool) : List Char → List Char → List (List Char)
  | buf, [] => if buf = [] then [] else [buf.reverse]
  | buf, c :: cs =>
    if p c then
      charRuns p (c :: buf) cs
    else if buf = [] then
      charRuns p [] cs
    else
      buf.reverse :: charRuns p [] cs

/-- Modelled from the spec: the countWords pattern of config.py
restricted to ASCII input without apostrophes, where it matches exactly
the maximal runs of letters, digits, and underscores.  Used to
instantiate the regular expression environment on concrete inputs. -/
def countWordsAscii (s : String) : List String :=
  (charRuns isAsciiWordChar [] s.data).map (fun l => String.mk l)

/-- Modelled from the spec: the countChunks pattern matches only wiki
markup constructs (links, templates, tags, bare URLs); on plain text
without such constructs it produces no match. -/
def countChunksPlain (_s : String) : List String := []

/-- The concrete regular expression environment used on plain ASCII
inputs. -/
def asciiRegExpEnv : RegExpEnv :=
  { countWords := countWordsAscii, countChunks := countChunksPlain }

/-- A concrete state for the extension counterexample: the new text
holds the tokens "a" "a" "a" and the old text the tokens "a" "a", all
unmatched.  The token "a" occurs three times in the new and twice in the
old version, so the unique link pass finds no entry with both counters
one and the linked flag stays false. -/
def cexGState : GState :=
  { newText :=
      { tokens :=
          #[ ⟨"a", none, some 1, none, none, false⟩,
             ⟨"a", some 0, some 2, none, none, false⟩,
             ⟨"a", some 1, none, none, none, false⟩ ]
        first := some 0
        last := some 2
        words := [("a", 3)] }
    oldText :=
      { tokens :=
          #[ ⟨"a", none, some 1, none, none, false⟩,
             ⟨"a", some 0, none, none, none, false⟩ ]
        first := some 0
        last := some 1
        words := [("a", 2)] }
    symbols := emptySymbols
    bordersDown := []
    bordersUp := [] }

/-- A concrete arena pair for the extension witness: the new text holds
"x" "b" and the old text "x" "c", all unmatched; the walks from the
start are duplicate free and in range, and exactly the first token pair
is equal. -/
def extWitNewTokens : Array Tok :=
  #[ ⟨"x", none, some 1, none, none, false⟩,
     ⟨"b", some 0, none, none, none, false⟩ ]

/-- Old side of the extension witness arenas. -/
def extWitOldTokens : Array Tok :=
  #[ ⟨"x", none, some 1, none, none, false⟩,
     ⟨"c", some 0, none, none, none, false⟩ ]

/-- A state for the persistent flag demonstration: both versions hold
the tokens "b" "b", all unmatched, and the object symbol table carries
linked true left behind by an earlier invocation of the same diff run
(the flag is cleared only at the start of diff, diff.py line 328).  The
token "b" occurs twice on each side, so the unique link pass of this
invocation links nothing. -/
def persistGState : GState :=
  { newText :=
      { tokens :=
          #[ ⟨"b", none, some 1, none, none, false⟩,
             ⟨"b", some 0, none, none, none, false⟩ ]
        first := some 0
        last := some 1
        words := [("b", 2)] }
    oldText :=
      { tokens :=
          #[ ⟨"b", none, some 1, none, none, false⟩,
             ⟨"b", some 0, none, none, none, false⟩ ]
        first := some 0
        last := some 1
        words := [("b", 2)] }
    symbols := { token := [], hashTable := [], linked := true }
    bordersDown := []
    bordersUp := [] }

/-- A concrete pass 3 state for the unique link witness: one token "q"
on each side, both unmatched; the symbol entry for "q" has both counters
one. -/
def c6WitState : Pass3State :=
  { newTokens := #[⟨"q", none, none, none, none, false⟩]
    oldTokens := #[⟨"q", none, none, none, none, false⟩]
    linked := false
    bordersDown := []
    bordersUp := [] }

/-- The wrapper layout of getDiffFragments: the merged fragments of the
groups between a fragment start and end pair, all inside the container
pair (diff.py lines 2102 to 2105). -/
def wrapStream (L : List Fragment) : List Fragment :=
  ⟨"", 0, FType.containerStart⟩ :: ⟨"", 0, FType.fragStart⟩ ::
    (L ++ [⟨"", 0, FType.fragEnd⟩, ⟨"", 0, FType.containerEnd⟩])

/-- Blocks of a two block example: a fixed equal block and a moved equal
block. -/
def c3WitBlocks : List Block :=
  [{ oldBlock := some 0, newBlock := some 0, oldNumber := some 0,
     newNumber := some 0, oldStart := some 0, count := some 1,
     unique := some false, words := 1, chars := 1, type := BType.same,
     sect := none, group := some 0, fixed := some true, moved := none,
     text := "a" },
   { oldBlock := some 1, newBlock := some 1, oldNumber := some 1,
     newNumber := some 1, oldStart := some 1, count := some 1,
     unique := some false, words := 1, chars := 1, type := BType.same,
     sect := none, group := some 1, fixed := some false, moved := none,
     text := "b" }]

/-- Groups of the example: group zero fixed with no color, group one
moved with color one. -/
def c3WitGroups : List DiffGroup :=
  [{ oldNumber := some 0, blockStart := 0, blockEnd := 0, unique := false,
     maxWords := some 1, words := 1, chars := 1, fixed := true,
     movedFrom := none, color := 0 },
   { oldNumber := some 1, blockStart := 1, blockEnd := 1, unique := false,
     maxWords := some 1, words := 1, chars := 1, fixed := false,
     movedFrom := some 0, color := 1 }]

/-! ### Helper lemmas about the arena primitives -/

theorem size_setTok (a : Array Tok) (i : Nat) (t : Tok) :
    (setTok a i t).size = a.size := by
  simp [setTok, Array.size_setD]

theorem getTok_setTok_self (a : Array Tok) (i : Nat) (t : Tok)
    (h : i < a.size) : getTok (setTok a i t) i = t := by
  simp [getTok, setTok, Array.setD, h, Array.get?_eq_getElem?, Array.get?_set]

theorem getTok_setTok_ne (a : Array Tok) (i : Nat) (t : Tok) (j : Nat)
    (h : j ≠ i) : getTok (setTok a i t) j = getTok a j := by
  by_cases hi : i < a.size
  · simp only [getTok, setTok, Array.setD, hi, dif_pos,
      Array.get?_eq_getElem?, Array.get?_set]
    rw [if_neg (fun hh : i = j => h hh.symm)]
  · simp [setTok, Array.setD, hi]

theorem size_setLink (a : Array Tok) (i : Nat) (v : Option Nat) :
    (setLink a i v).size = a.size := by
  simp [setLink, size_setTok]

theorem getTok_setLink_self (a : Array Tok) (i : Nat) (v : Option Nat)
    (h : i < a.size) : getTok (setLink a i v) i = { getTok a i with link := v } := by
  simp [setLink, getTok_setTok_self _ _ _ h]

theorem getTok_setLink_ne (a : Array Tok) (i : Nat) (v : Option Nat) (j : Nat)
    (h : j ≠ i) : getTok (setLink a i v) j = getTok a j := by
  simp [setLink, getTok_setTok_ne _ _ _ _ h]

theorem size_setUnique (a : Array Tok) (i : Nat) (v : Bool) :
    (setUnique a i v).size = a.size := by
  simp [setUnique, size_setTok]

theorem getTok_setUnique_self (a : Array Tok) (i : Nat) (v : Bool)
    (h : i < a.size) :
    getTok (setUnique a i v) i = { getTok a i with unique := v } := by
  simp [setUnique, getTok_setTok_self _ _ _ h]

theorem getTok_setUnique_ne (a : Array Tok) (i : Nat) (v : Bool) (j : Nat)
    (h : j ≠ i) : getTok (setUnique a i v) j = getTok a j := by
  simp [setUnique, getTok_setTok_ne _ _ _ _ h]

/-! ### Lemmas about the words table -/

theorem lookup_map_incr (ws : List (String × Nat)) (v w : String) :
    List.lookup w (ws.map (fun p => if p.1 = v then (p.1, p.2 + 1) else p)) =
      if v = w then (List.lookup w ws).map (fun n => n + 1)
      else List.lookup w ws := by
  induction ws with
  | nil => by_cases hvw : v = w <;> simp [hvw]
  | cons p t ih =>
    obtain ⟨k, n⟩ := p
    have hmap : (fun p : String × Nat =>
        if p.1 = v then (p.1, p.2 + 1) else p) (k, n) =
        if k = v then (k, n + 1) else (k, n) := by
      by_cases hkv : k = v <;> simp [hkv]
    by_cases hwk : w = k
    · have hbeq : (w == k) = true := by simp [hwk]
      by_cases hkv : k = v
      · have hvw : v = w := by rw [hwk, ← hkv]
        simp [List.map_cons, hmap, hkv, List.lookup_cons, hbeq, hvw]
      · have hvw : ¬ v = w := by
          intro hh
          exact hkv (hwk ▸ hh.symm)
        simp [List.map_cons, hmap, hkv, List.lookup_cons, hbeq, hvw]
    · have hbeq : (w == k) = false := by simp [hwk]
      by_cases hkv : k = v
      · have hwv : ¬ w = v := by
          intro hh
          exact hwk (by rw [hh, ← hkv])
        have hbeq2 : (w == v) = false := by simp [hwv]
        have hvw : ¬ v = w := fun hh => hwv hh.symm
        simp [List.map_cons, hmap, hkv, List.lookup_cons, hbeq, hbeq2, hvw, ih]
      · simp [List.map_cons, hmap, hkv, List.lookup_cons, hbeq, ih]

theorem lookup_append_single (ws : List (String × Nat)) (v w : String)
    (n : Nat) :
    List.lookup w (ws ++ [(v, n)]) =
      match List.lookup w ws with
      | some m => some m
      | none => if w = v then some n else none := by
  induction ws with
  | nil =>
    by_cases hwv : w = v
    · have hbeq : (w == v) = true := by simp [hwv]
      simp [List.lookup_cons, hbeq, hwv]
    · have hbeq : (w == v) = false := by simp [hwv]
      simp [List.lookup_cons, hbeq, hwv]
  | cons p t ih =>
    obtain ⟨k, m⟩ := p
    by_cases hwk : w = k
    · have hbeq : (w == k) = true := by simp [hwk]
      simp [List.lookup_cons, hbeq]
    · have hbeq : (w == k) = false := by simp [hwk]
      simp only [List.cons_append, List.lookup_cons, hbeq]
      exact ih

theorem wordsLookup_wordsIncr (ws : List (String × Nat)) (v w : String) :
    wordsLookup (wordsIncr ws v) w =
      wordsLookup ws w + (if v = w then 1 else 0) := by
  unfold wordsIncr wordsLookup
  by_cases hs : (List.lookup v ws).isSome
  · rw [if_pos hs, lookup_map_incr]
    by_cases hvw : v = w
    · subst hvw
      obtain ⟨m, hm⟩ := Option.isSome_iff_exists.mp hs
      simp [hm]
    · simp [hvw]
  · rw [if_neg hs, lookup_append_single]
    by_cases hvw : v = w
    · subst hvw
      have : List.lookup v ws = none := by
        cases h : List.lookup v ws with
        | none => rfl
        | some m => exact absurd (by simp [h]) hs
      simp [this]
    · have hwv : ¬ w = v := fun hh => hvw hh.symm
      cases h : List.lookup w ws with
      | none => simp [hwv, hvw]
      | some m => simp [hvw]

theorem wordsLookup_wordParse (ms : List String) (ws : List (String × Nat))
    (w : String) :
    wordsLookup (wordParse ms ws) w = wordsLookup ws w + ms.count w := by
  induction ms generalizing ws with
  | nil => simp [wordParse]
  | cons m t ih =>
    have hcons : wordParse (m :: t) ws = wordParse t (wordsIncr ws m) := rfl
    rw [hcons, ih, wordsLookup_wordsIncr]
    have : t.count w + (if m = w then 1 else 0) = (m :: t).count w := by
      rw [List.count_cons]
      by_cases hmw : m = w <;> simp [hmw]
    omega

/-! ### Theorems for the claims -/

/-- C2: for every input string x (and both settings of the trailing
newline strip), the early exit of diff fires on the pair (x, x) and the
returned stream is exactly the five fragments of types container start,
fragment start, "=", fragment end, container end, in this order, all
with empty text and color zero. -/
theorem wikEdDiff_diff_trivial_equal_inputs (strip : Bool) (x : String) :
    diffTrivialCheck strip x x =
      some [ ⟨"", 0, FType.containerStart⟩,
             ⟨"", 0, FType.fragStart⟩,
             ⟨"", 0, FType.same⟩,
             ⟨"", 0, FType.fragEnd⟩,
             ⟨"", 0, FType.containerEnd⟩ ] := by
  unfold diffTrivialCheck stripTrailingNewlinePair
  dsimp only
  split <;> simp [diffTrivialFragments]

/-- C9 counterexample: counting the single match list ["a"] into an
empty words table twice does not equal counting it once, so wordParse is
not idempotent: the first invocation yields a count of one for "a", the
second raises it to two. -/
theorem wikEdDiff_wordParse_not_idempotent :
    wordParse ["a"] (wordParse ["a"] []) ≠ wordParse ["a"] [] := by
  decide

/-- C9 amended: wordParse is additive rather than idempotent.  Invoking
wordParse a second time with the same pattern (hence the same match
list) adds every occurrence count again: afterwards the count of each
word equals its count after the first invocation plus the number of its
occurrences in the match list. -/
theorem wikEdDiff_wordParse_additive (ms : List String)
    (ws : List (String × Nat)) (w : String) :
    wordsLookup (wordParse ms (wordParse ms ws)) w =
      wordsLookup (wordParse ms ws) w + ms.count w := by
  rw [wordsLookup_wordParse]

/-- C10: every deletion block produced by getDelBlocks and every
insertion block produced by getInsBlocks carries the literal word count
zero, independent of the block text; the word count heuristics built on
block words therefore see only "=" blocks. -/
theorem wikEdDiff_del_ins_blocks_zero_words (newText oldText : TextArena) :
    (∀ b ∈ getDelBlocks newText oldText,
      b.type = BType.del ∧ b.words = 0) ∧
    (∀ b ∈ getInsBlocks newText, b.type = BType.ins ∧ b.words = 0) := by
  constructor
  · have main : ∀ (fuel : Nat) (j : Option Nat),
        ∀ b ∈ getDelBlocksGo newText.tokens oldText.tokens fuel j,
          b.type = BType.del ∧ b.words = 0 := by
      intro fuel
      induction fuel with
      | zero => intro j b hb; simp [getDelBlocksGo] at hb
      | succ n ih =>
        intro j b hb
        cases j with
        | none => simp [getDelBlocksGo] at hb
        | some j0 =>
          simp only [getDelBlocksGo] at hb
          split at hb
          · rename_i heq
            split at hb
            · simp only [List.mem_singleton] at hb
              subst hb
              exact ⟨rfl, rfl⟩
            · simp at hb
          · rename_i j2 heq
            rw [List.mem_append] at hb
            rcases hb with hb | hb
            · split at hb
              · simp only [List.mem_singleton] at hb
                subst hb
                exact ⟨rfl, rfl⟩
              · simp at hb
            · exact ih _ b hb
    exact main _ _
  · have main : ∀ (fuel : Nat) (i : Option Nat),
        ∀ b ∈ getInsBlocksGo newText.tokens fuel i,
          b.type = BType.ins ∧ b.words = 0 := by
      intro fuel
      induction fuel with
      | zero => intro i b hb; simp [getInsBlocksGo] at hb
      | succ n ih =>
        intro i b hb
        cases i with
        | none => simp [getInsBlocksGo] at hb
        | some i0 =>
          simp only [getInsBlocksGo] at hb
          split at hb
          · simp at hb
          · rename_i iStart heq
            rcases List.mem_cons.mp hb with hb | hb
            · subst hb
              exact ⟨rfl, rfl⟩
            · exact ih _ b hb
    exact main _ _

/-- C4: behavior of unitTests on a stream that fails to reassemble the
new version (here the empty stream against old "a", new "b", with the
incoming error flag False as set by the reset at the top of diff).
Contrary to the claim, the source assigns False, not True, to the error
flag (diff.py line 2490) and then raises NameError on the undefined
variable text (line 2491), so the call aborts instead of returning the
stream with the flag set. -/
theorem wikEdDiff_unitTests_failure_behavior :
    getDiffPlainText ([] : List Fragment) Version.new = "" ∧
    unitTests "a" "b" [] false = (false, some PyError.nameError) := by
  constructor
  · rfl
  · decide

/-- C5: the slide stop test of the upward gap slide is dead code.  The
literal condition of diff.py line 651 compares the re.search result with
the object True and never holds, so the scan never stops at a line
terminator: on the concrete arena slideExTokens, whose scan for the gap
[3 .. 4] passes the matched newline token at index 1, the slideStop
pattern matches that token, the intended semantics stops there
(frontStop = 1), but the code leaves frontStop at the initial border
position 2.  The last conjunct shows the guard is False for every
search result. -/
theorem wikEdDiff_slideGaps_slideStop_dead :
    pyDollarClassSearch isSlideStopChar (getTok slideExTokens 1).token = true ∧
    findFrontStop slideExTokens 3 4 = some 2 ∧
    findFrontStopIntended slideExTokens 3 4 = some 1 ∧
    (∀ found : Bool, pyMatchIsTrueLiteral found = false) := by
  refine ⟨by decide, by decide, by decide, fun found => rfl⟩

theorem link_ite_setUnique (b : Array Tok) (i : Nat) (u : Bool)
    (h : i < b.size) :
    (getTok (if u = true then setUnique b i true else b) i).link =
      (getTok b i).link := by
  cases u
  · simp
  · simp [getTok_setUnique_self _ _ _ h]

/-- C6: in the unique link pass of the symbol table linker, an entry
whose token occurs exactly once in both versions (both counters one,
with the new token still unmatched) links the two token indices if and
only if the token text is not blank only, that is, the blankOnlyToken
search finds a character outside the class of blanks, newlines, and
paragraph break characters; blank only tokens are never used as unique
anchors. -/
theorem wikEdDiff_pass3_unique_link_blank_only
    (env : RegExpEnv) (blockMinLength : Nat) (level : Level)
    (recursionLevel : Nat) (newWords oldWords : List (String × Nat))
    (st : Pass3State) (sym : DiffSymbol) (nt ot : Nat)
    (h1 : sym.newCount = 1) (h2 : sym.oldCount = 1)
    (h3 : sym.newToken = some nt) (h4 : sym.oldToken = some ot)
    (h5 : (getTok st.newTokens nt).link = none)
    (h6 : nt < st.newTokens.size) (h7 : ot < st.oldTokens.size) :
    (((getTok (pass3Step env blockMinLength level recursionLevel newWords
        oldWords st sym).newTokens nt).link = some ot) ∧
     ((getTok (pass3Step env blockMinLength level recursionLevel newWords
        oldWords st sym).oldTokens ot).link = some nt))
    ↔ blankOnlyTokenSearch (getTok st.newTokens nt).token = true := by
  unfold pass3Step
  rw [h3, h4]
  simp only [h1, h2, and_self, if_true]
  rw [if_pos h5]
  by_cases hb : blankOnlyTokenSearch (getTok st.newTokens nt).token = true
  · rw [if_pos hb]
    have hA : nt < (setLink st.newTokens nt (some ot)).size := by
      rw [size_setLink]; exact h6
    have hB : ot < (setLink st.oldTokens ot (some nt)).size := by
      rw [size_setLink]; exact h7
    rw [link_ite_setUnique _ _ _ hA, link_ite_setUnique _ _ _ hB,
      getTok_setLink_self _ _ _ h6, getTok_setLink_self _ _ _ h7]
    simp [hb]
  · rw [if_neg hb]
    simp only [h5]
    constructor
    · intro hcon
      exact absurd hcon.1 (by simp)
    · intro hcon
      exact absurd hcon (by simpa using hb)

/-- Witness for C6 at a concrete input: the single token "q" occurs once
in each version and is not blank only, and the pass 3 step links the
pair. -/
theorem wikEdDiff_pass3_unique_link_blank_only_witness :
    ((getTok c6WitState.newTokens 0).link = none ∧
      0 < c6WitState.newTokens.size) ∧
    (((getTok (pass3Step asciiRegExpEnv 3 Level.word 0 [("q", 1)] [("q", 1)]
        c6WitState ⟨1, 1, some 0, some 0⟩).newTokens 0).link = some 0 ∧
      (getTok (pass3Step asciiRegExpEnv 3 Level.word 0 [("q", 1)] [("q", 1)]
        c6WitState ⟨1, 1, some 0, some 0⟩).oldTokens 0).link = some 0)
     ↔ blankOnlyTokenSearch (getTok c6WitState.newTokens 0).token = true) :=
  ⟨⟨by decide, by decide⟩,
    wikEdDiff_pass3_unique_link_blank_only asciiRegExpEnv 3 Level.word 0
      [("q", 1)] [("q", 1)] c6WitState ⟨1, 1, some 0, some 0⟩ 0 0
      rfl rfl rfl rfl (by decide) (by decide) (by decide)⟩

/-! ### Depth bound of the gap recursion -/

theorem recurseGapBorders_depth_le
    (cfg : WikConfig) (env : RegExpEnv) (level : Level)
    (recurse up : Bool) (rl : Nat) (h : rl < cfg.recursionMax)
    (IH : ∀ (ns os : Option Nat) (u : Bool) (g : GState),
      (calculateDiff cfg env level recurse false ns os u (rl + 1) g).2 ≤
        cfg.recursionMax - (rl + 1)) :
    ∀ (borders : List (Nat × Nat)) (g : GState),
      (recurseGapBorders cfg env level recurse up rl h borders g).2 ≤
        cfg.recursionMax - rl := by
  intro borders
  induction borders with
  | nil =>
    intro g
    rw [recurseGapBorders]
    simp
  | cons b rest ihl =>
    intro g
    rw [recurseGapBorders]
    dsimp only
    refine max_le ?_ (ihl _)
    rcases hiv : (if up then (getTok g.newText.tokens b.1).prev
        else (getTok g.newText.tokens b.1).next) with _ | i'
    · simp
    · rcases hjv : (if up then (getTok g.oldText.tokens b.2).prev
          else (getTok g.oldText.tokens b.2).next) with _ | j'
      · simp
      · dsimp only
        split
        · have hd := IH (some i') (some j') up g
          dsimp only
          omega
        · simp

/-- C8: the gap recursion of calculateDiff is bounded.  A recursive call
into an unresolved gap is made only under the guard that recursion is
enabled and the current recursion level is strictly below recursionMax
(the definition of calculateDiff is total for this very reason), and the
nesting depth of gap recursions of any invocation started at a level not
above recursionMax is at most recursionMax minus that level; at the top
level the depth therefore never exceeds recursionMax (default ten). -/
theorem wikEdDiff_recursion_depth_bounded
    (cfg : WikConfig) (env : RegExpEnv) (level : Level)
    (recurse repeating : Bool) (ns os : Option Nat) (up : Bool) (rl : Nat)
    (g : GState) (hrl : rl ≤ cfg.recursionMax) :
    (calculateDiff cfg env level recurse repeating ns os up rl g).2 ≤
      cfg.recursionMax - rl := by
  have main : ∀ (m : Nat) (repeating : Bool) (rl : Nat),
      2 * (cfg.recursionMax + 1 - rl) + (if repeating then 0 else 1) ≤ m →
      rl ≤ cfg.recursionMax →
      ∀ (recurse : Bool) (ns os : Option Nat) (up : Bool) (g : GState),
        (calculateDiff cfg env level recurse repeating ns os up rl g).2 ≤
          cfg.recursionMax - rl := by
    intro m
    induction m using Nat.strong_induction_on with
    | _ m IHm =>
      intro repeating rl hm hrl recurse ns os up g
      rw [calculateDiff]
      dsimp only
      split
      · have hrep_le : (if hrep : repeating = false ∧ cfg.repeatedDiff = true
            then calculateDiff cfg env level recurse true ns os up rl
              (calcCore cfg env level repeating ns os up rl g).g
            else ((calcCore cfg env level repeating ns os up rl g).g, 0)).2 ≤
            cfg.recursionMax - rl := by
          split
          · rename_i hrep
            have hmeas : 2 * (cfg.recursionMax + 1 - rl) +
                (if true then 0 else 1) ≤ m - 1 := by
              rw [hrep.1] at hm
              simp only [if_true]
              simp only [Bool.false_eq_true, if_false] at hm
              omega
            have hmlt : m - 1 < m := by
              have : (2 : Nat) ≤ 2 * (cfg.recursionMax + 1 - rl) := by
                omega
              omega
            exact IHm (m - 1) hmlt true rl hmeas hrl recurse ns os up _
          · simp
        split
        · rename_i hgap
          have hlt : rl < cfg.recursionMax := hgap.2.2
          have IH1 : ∀ (ns' os' : Option Nat) (u' : Bool) (g' : GState),
              (calculateDiff cfg env level recurse false ns' os' u'
                (rl + 1) g').2 ≤ cfg.recursionMax - (rl + 1) := by
            intro ns' os' u' g'
            have hmeas : 2 * (cfg.recursionMax + 1 - (rl + 1)) +
                (if false then 0 else 1) ≤ m - 1 := by
              rcases hrepv : repeating with _ | _
              · rw [hrepv] at hm
                simp only [Bool.false_eq_true, if_false] at hm
                simp only [Bool.false_eq_true, if_false]
                omega
              · rw [hrepv] at hm
                simp only [if_true] at hm
                simp only [Bool.false_eq_true, if_false]
                omega
            have hmlt : m - 1 < m := by
              have : (2 : Nat) ≤ 2 * (cfg.recursionMax + 1 - rl) := by
                omega
              omega
            exact IHm (m - 1) hmlt false (rl + 1) hmeas hlt recurse ns' os' u' g'
          have hdown := recurseGapBorders_depth_le cfg env level recurse false
            rl hlt IH1
          have hup := recurseGapBorders_depth_le cfg env level recurse true
            rl hlt IH1
          dsimp only
          refine max_le hrep_le (max_le (hdown _ _) (hup _ _))
        · exact hrep_le
      · simp
  exact main (2 * (cfg.recursionMax + 1 - rl) +
    (if repeating then 0 else 1)) repeating rl le_rfl hrl recurse ns os up g

/-- Witness for C8 at a concrete input: the default configuration
(recursionMax ten) on the counterexample state at recursion level zero;
the depth of the whole run is at most ten. -/
theorem wikEdDiff_recursion_depth_bounded_witness :
    (0 ≤ defaultWikConfig.recursionMax) ∧
    (calculateDiff defaultWikConfig asciiRegExpEnv Level.word true false
      (some 0) (some 0) false 0 cexGState).2 ≤
      defaultWikConfig.recursionMax - 0 :=
  ⟨by decide,
    wikEdDiff_recursion_depth_bounded defaultWikConfig asciiRegExpEnv
      Level.word true false (some 0) (some 0) false 0 cexGState (by decide)⟩

/-! ### The boundary extension links exactly the maximal equal run -/

theorem step_getTok_setLink (step : Tok → Option Nat)
    (hstep : ∀ (t : Tok) (v : Option Nat), step { t with link := v } = step t)
    (a : Array Tok) (p : Nat) (v : Option Nat) (q : Nat) :
    step (getTok (setLink a p v) q) = step (getTok a q) := by
  by_cases hq : q = p
  · subst hq
    by_cases hp : q < a.size
    · rw [getTok_setLink_self _ _ _ hp]
      exact hstep _ _
    · have hs : setLink a q v = a := by
        simp [setLink, setTok, Array.setD, hp]
      rw [hs]
  · rw [getTok_setLink_ne _ _ _ _ hq]

theorem tokenWalk_setLink (step : Tok → Option Nat)
    (hstep : ∀ (t : Tok) (v : Option Nat), step { t with link := v } = step t)
    (a : Array Tok) (p : Nat) (v : Option Nat) :
    ∀ (fuel : Nat) (s : Option Nat),
      tokenWalk (setLink a p v) step fuel s = tokenWalk a step fuel s := by
  intro fuel
  induction fuel with
  | zero => intro s; rfl
  | succ n ihw =>
    intro s
    cases s with
    | none => rfl
    | some q =>
      show q :: tokenWalk (setLink a p v) step n (step (getTok (setLink a p v) q)) =
        q :: tokenWalk a step n (step (getTok a q))
      rw [step_getTok_setLink step hstep, ihw]

theorem takeWhile_congr_mem {α : Type} (p q : α → Bool) :
    ∀ (l : List α), (∀ x ∈ l, p x = q x) →
      l.takeWhile p = l.takeWhile q := by
  intro l
  induction l with
  | nil => intro _; rfl
  | cons a t ihl =>
    intro h
    rw [List.takeWhile_cons, List.takeWhile_cons, h a (List.mem_cons_self _ _)]
    cases hq : q a
    · rfl
    · simp only [if_true]
      rw [ihl (fun x hx => h x (List.mem_cons_of_mem a hx))]

theorem extendLoopGo_spec (step : Tok → Option Nat)
    (hstep : ∀ (t : Tok) (v : Option Nat), step { t with link := v } = step t) :
    ∀ (fuel : Nat) (newT oldT : Array Tok) (i j : Option Nat)
      (m : Option (Nat × Nat)),
      (tokenWalk newT step fuel i).Nodup →
      (tokenWalk oldT step fuel j).Nodup →
      (∀ p ∈ tokenWalk newT step fuel i, p < newT.size) →
      (∀ q ∈ tokenWalk oldT step fuel j, q < oldT.size) →
      extLinksSpec step newT oldT fuel i j
        (extendLoopGo step newT oldT fuel i j m) := by
  intro fuel
  induction fuel with
  | zero =>
    intro newT oldT i j m _ _ _ _
    refine ⟨?_, ?_, ?_⟩
    · intro pq hpq
      simp [tokenWalk] at hpq
    · intro p _; rfl
    · intro q _; rfl
  | succ n ih =>
    intro newT oldT i j m hn ho hrn hro
    cases i with
    | none =>
      refine ⟨?_, ?_, ?_⟩
      · intro pq hpq
        simp [tokenWalk] at hpq
      · intro p _; rfl
      · intro q _; rfl
    | some i' =>
      cases j with
      | none =>
        refine ⟨?_, ?_, ?_⟩
        · intro pq hpq
          simp [tokenWalk, List.zip_nil_right] at hpq
        · intro p _; rfl
        · intro q _; rfl
      | some j' =>
        have hwn : tokenWalk newT step (n + 1) (some i') =
            i' :: tokenWalk newT step n (step (getTok newT i')) := rfl
        have hwo : tokenWalk oldT step (n + 1) (some j') =
            j' :: tokenWalk oldT step n (step (getTok oldT j')) := rfl
        have hni' : i' ∉ tokenWalk newT step n (step (getTok newT i')) := by
          rw [hwn] at hn
          exact (List.nodup_cons.mp hn).1
        have hnj' : j' ∉ tokenWalk oldT step n (step (getTok oldT j')) := by
          rw [hwo] at ho
          exact (List.nodup_cons.mp ho).1
        have hi'size : i' < newT.size := hrn i' (by rw [hwn]; exact List.mem_cons_self _ _)
        have hj'size : j' < oldT.size := hro j' (by rw [hwo]; exact List.mem_cons_self _ _)
        by_cases hc : (getTok newT i').link = none ∧
            (getTok oldT j').link = none ∧
            (getTok newT i').token = (getTok oldT j').token
        · -- the loop links the head pair and recurses
          have hcb : extCond newT oldT (i', j') = true := by
            simp only [extCond]
            exact decide_eq_true hc
          have hloop : extendLoopGo step newT oldT (n + 1) (some i') (some j') m =
              extendLoopGo step (setLink newT i' (some j'))
                (setLink oldT j' (some i')) n (step (getTok newT i'))
                (step (getTok oldT j')) (some (i', j')) := by
            simp only [extendLoopGo]
            rw [if_pos hc]
          have hwalkN : tokenWalk (setLink newT i' (some j')) step n
              (step (getTok newT i')) =
              tokenWalk newT step n (step (getTok newT i')) :=
            tokenWalk_setLink step hstep _ _ _ _ _
          have hwalkO : tokenWalk (setLink oldT j' (some i')) step n
              (step (getTok oldT j')) =
              tokenWalk oldT step n (step (getTok oldT j')) :=
            tokenWalk_setLink step hstep _ _ _ _ _
          have ihr := ih (setLink newT i' (some j')) (setLink oldT j' (some i'))
            (step (getTok newT i')) (step (getTok oldT j')) (some (i', j'))
            (by rw [hwalkN]; rw [hwn] at hn; exact (List.nodup_cons.mp hn).2)
            (by rw [hwalkO]; rw [hwo] at ho; exact (List.nodup_cons.mp ho).2)
            (by
              intro p hp
              rw [hwalkN] at hp
              rw [size_setLink]
              exact hrn p (by rw [hwn]; exact List.mem_cons_of_mem _ hp))
            (by
              intro q hq
              rw [hwalkO] at hq
              rw [size_setLink]
              exact hro q (by rw [hwo]; exact List.mem_cons_of_mem _ hq))
          unfold extLinksSpec at ihr
          rw [hwalkN, hwalkO] at ihr
          -- the takeWhile over the tail agrees between the updated and the
          -- original arenas
          have hcongr : (((tokenWalk newT step n (step (getTok newT i'))).zip
              (tokenWalk oldT step n (step (getTok oldT j')))).takeWhile
                (extCond (setLink newT i' (some j')) (setLink oldT j' (some i')))) =
              (((tokenWalk newT step n (step (getTok newT i'))).zip
              (tokenWalk oldT step n (step (getTok oldT j')))).takeWhile
                (extCond newT oldT)) := by
            apply takeWhile_congr_mem
            intro pq hpq
            have hp1 := (List.mem_zip hpq).1
            have hp2 := (List.mem_zip hpq).2
            have hne1 : pq.1 ≠ i' := fun hh => hni' (hh ▸ hp1)
            have hne2 : pq.2 ≠ j' := fun hh => hnj' (hh ▸ hp2)
            simp only [extCond, getTok_setLink_ne _ _ _ _ hne1,
              getTok_setLink_ne _ _ _ _ hne2]
          rw [hcongr] at ihr
          obtain ⟨ihr1, ihr2, ihr3⟩ := ihr
          have hnotin1 : i' ∉ (((tokenWalk newT step n (step (getTok newT i'))).zip
              (tokenWalk oldT step n (step (getTok oldT j')))).takeWhile
                (extCond newT oldT)).map Prod.fst := by
            intro hmem
            obtain ⟨pq, hpq, hfst⟩ := List.mem_map.mp hmem
            have := (List.mem_zip (List.takeWhile_sublist _ |>.mem hpq)).1
            exact hni' (hfst ▸ this)
          have hnotin2 : j' ∉ (((tokenWalk newT step n (step (getTok newT i'))).zip
              (tokenWalk oldT step n (step (getTok oldT j')))).takeWhile
                (extCond newT oldT)).map Prod.snd := by
            intro hmem
            obtain ⟨pq, hpq, hsnd⟩ := List.mem_map.mp hmem
            have := (List.mem_zip (List.takeWhile_sublist _ |>.mem hpq)).2
            exact hnj' (hsnd ▸ this)
          refine ⟨?_, ?_, ?_⟩
          · intro pq hpq
            rw [hwn, hwo, List.zip_cons_cons, List.takeWhile_cons, hcb,
              if_pos rfl] at hpq
            rcases List.mem_cons.mp hpq with hpq | hpq
            · subst hpq
              rw [hloop]
              constructor
              · rw [ihr2 i' hnotin1,
                  getTok_setLink_self _ _ _ hi'size]
              · rw [ihr3 j' hnotin2,
                  getTok_setLink_self _ _ _ hj'size]
            · rw [hloop]
              exact ihr1 pq hpq
          · intro p hp
            rw [hwn, hwo, List.zip_cons_cons, List.takeWhile_cons, hcb,
              if_pos rfl, List.map_cons] at hp
            have hpne : p ≠ i' := fun hh => hp (hh ▸ List.mem_cons_self _ _)
            have hpnotin : p ∉ (((tokenWalk newT step n (step (getTok newT i'))).zip
                (tokenWalk oldT step n (step (getTok oldT j')))).takeWhile
                  (extCond newT oldT)).map Prod.fst :=
              fun hh => hp (List.mem_cons_of_mem _ hh)
            rw [hloop, ihr2 p hpnotin, getTok_setLink_ne _ _ _ _ hpne]
          · intro q hq
            rw [hwn, hwo, List.zip_cons_cons, List.takeWhile_cons, hcb,
              if_pos rfl, List.map_cons] at hq
            have hqne : q ≠ j' := fun hh => hq (hh ▸ List.mem_cons_self _ _)
            have hqnotin : q ∉ (((tokenWalk newT step n (step (getTok newT i'))).zip
                (tokenWalk oldT step n (step (getTok oldT j')))).takeWhile
                  (extCond newT oldT)).map Prod.snd :=
              fun hh => hq (List.mem_cons_of_mem _ hh)
            rw [hloop, ihr3 q hqnotin, getTok_setLink_ne _ _ _ _ hqne]
        · -- the loop stops at once
          have hcb : extCond newT oldT (i', j') = false := by
            simp only [extCond]
            exact decide_eq_false hc
          have hloop : extendLoopGo step newT oldT (n + 1) (some i') (some j') m =
              (newT, oldT, m) := by
            simp only [extendLoopGo]
            rw [if_neg hc]
          refine ⟨?_, ?_, ?_⟩
          · intro pq hpq
            rw [hwn, hwo, List.zip_cons_cons, List.takeWhile_cons, hcb] at hpq
            simp at hpq
          · intro p _
            rw [hloop]
          · intro q _
            rw [hloop]

/-! ### Without a linked unique pair the passes leave the arenas alone -/

theorem pass3Step_id_of_not_linked (env : RegExpEnv) (bml : Nat)
    (level : Level) (rl : Nat) (nw ow : List (String × Nat))
    (st : Pass3State) (sym : DiffSymbol)
    (h : (pass3Step env bml level rl nw ow st sym).linked = false) :
    pass3Step env bml level rl nw ow st sym = st := by
  by_cases c1 : sym.newCount = 1 ∧ sym.oldCount = 1
  · rcases hnt : sym.newToken with _ | nt
    · unfold pass3Step
      rw [if_pos c1, hnt]
    · rcases hot : sym.oldToken with _ | ot
      · unfold pass3Step
        rw [if_pos c1, hnt, hot]
      · by_cases c2 : (getTok st.newTokens nt).link = none
        · by_cases c3 : blankOnlyTokenSearch (getTok st.newTokens nt).token = true
          · exfalso
            unfold pass3Step at h
            rw [if_pos c1, hnt, hot] at h
            simp only [if_pos c2, if_pos c3] at h
            exact absurd h (by decide)
          · unfold pass3Step
            rw [if_pos c1, hnt, hot]
            simp only [if_pos c2, if_neg c3]
        · unfold pass3Step
          rw [if_pos c1, hnt, hot]
          simp only [if_neg c2]
  · unfold pass3Step
    rw [if_neg c1]

theorem pass3Run_id_of_not_linked (env : RegExpEnv) (bml : Nat)
    (level : Level) (rl : Nat) (nw ow : List (String × Nat)) :
    ∀ (syms : List DiffSymbol) (st : Pass3State),
      (pass3Run env bml level rl nw ow syms st).linked = false →
      pass3Run env bml level rl nw ow syms st = st := by
  intro syms
  induction syms with
  | nil => intro st _; rfl
  | cons s rest ihs =>
    intro st h
    have h2 : (pass3Run env bml level rl nw ow rest
        (pass3Step env bml level rl nw ow st s)).linked = false := h
    have hrest := ihs _ h2
    have hstep : (pass3Step env bml level rl nw ow st s).linked = false := by
      rw [hrest] at h2
      exact h2
    have hid := pass3Step_id_of_not_linked env bml level rl nw ow st s hstep
    calc pass3Run env bml level rl nw ow (s :: rest) st
        = pass3Run env bml level rl nw ow rest
            (pass3Step env bml level rl nw ow st s) := rfl
      _ = pass3Step env bml level rl nw ow st s := hrest
      _ = st := hid

theorem calcCore_linked_eq (cfg : WikConfig) (env : RegExpEnv)
    (level : Level) (repeating : Bool) (ns os : Option Nat) (up : Bool)
    (rl : Nat) (g : GState) :
    (calcCore cfg env level repeating ns os up rl g).linked =
      (corePasses cfg env level repeating ns os up rl g).2.linked := by
  unfold calcCore
  dsimp only
  split
  · rename_i hl
    exact hl.symm
  · rename_i hl
    exact ((Bool.not_eq_true _).mp hl).symm

theorem corePasses_arenas_of_not_linked (cfg : WikConfig) (env : RegExpEnv)
    (level : Level) (repeating : Bool) (ns os : Option Nat) (up : Bool)
    (rl : Nat) (g : GState)
    (h : (corePasses cfg env level repeating ns os up rl g).2.linked = false) :
    (corePasses cfg env level repeating ns os up rl g).2.newTokens =
      g.newText.tokens ∧
    (corePasses cfg env level repeating ns os up rl g).2.oldTokens =
      g.oldText.tokens := by
  unfold corePasses at h ⊢
  dsimp only at h ⊢
  rw [pass3Run_id_of_not_linked _ _ _ _ _ _ _ _ h]
  exact ⟨rfl, rfl⟩

theorem calcCore_arenas_unchanged_of_not_linked (cfg : WikConfig)
    (env : RegExpEnv) (level : Level) (repeating : Bool)
    (ns os : Option Nat) (up : Bool) (rl : Nat) (g : GState)
    (h : (calcCore cfg env level repeating ns os up rl g).linked = false) :
    (calcCore cfg env level repeating ns os up rl g).g.newText.tokens =
      g.newText.tokens ∧
    (calcCore cfg env level repeating ns os up rl g).g.oldText.tokens =
      g.oldText.tokens := by
  rw [calcCore_linked_eq] at h
  obtain ⟨h1, h2⟩ := corePasses_arenas_of_not_linked cfg env level repeating
    ns os up rl g h
  unfold calcCore
  dsimp only
  rw [if_neg (by rw [h]; exact Bool.false_ne_true)]
  exact ⟨h1, h2⟩

/-- C7 counterexample: on the concrete state cexGState the first new and
old tokens are equal ("a") and unmatched, and the engine runs at the full
text level (recursion level zero, not repeating, recursion enabled, with
all defaults), yet the full calculateDiff run links nothing: the token
"a" occurs three times in the new and twice in the old version, no entry
of the symbol table has both counters one, the linked flag stays false,
and the boundary extension is skipped together with passes 4 and 5.
This contradicts the claim that the start and end extension happens
regardless of whether any unique token pair was linked. -/
theorem wikEdDiff_extension_requires_linked_counterexample :
    (getTok cexGState.newText.tokens 0).token =
      (getTok cexGState.oldText.tokens 0).token ∧
    (getTok cexGState.newText.tokens 0).link = none ∧
    (getTok cexGState.oldText.tokens 0).link = none ∧
    (getTok (calculateDiff defaultWikConfig asciiRegExpEnv Level.word true
      false (some 0) (some 0) false 0 cexGState).1.newText.tokens 0).link =
      none ∧
    (getTok (calculateDiff defaultWikConfig asciiRegExpEnv Level.word true
      false (some 0) (some 0) false 0 cexGState).1.oldText.tokens 0).link =
      none := by
  refine ⟨by decide, by decide, by decide, ?_, ?_⟩ <;>
    (rw [calculateDiff]; decide)

/-- C7 amended: the boundary extension of calculateDiff is guarded by
the linked flag of the symbol table in use (diff.py line 877).  At
recursion level zero with repeating false that table is the persistent
object table symbols, whose flag is set whenever any unique pair is
linked (line 838) and cleared only at the start of diff (line 328), so
the flag can already be true from an earlier invocation of the same
diff run; nested and repeating invocations use a fresh local table.
First conjunct: when the flag in use is false after the unique link
pass, the invocation leaves every token of both arenas unchanged (the
extension, like passes 4 and 5, is skipped).  Second and third
conjunct: when the start (respectively end) extension runs, it links
exactly the maximal run of pairwise equal unmatched token pairs
starting at both arenas first (respectively last) tokens, the boundary
acting as a virtual match, and touches no other token; the run is the
takeWhile prefix of the zipped next (respectively prev) walks under the
condition that both tokens are unmatched and equal.  Fourth conjunct:
the gating is not per invocation: on a top level state whose persistent
flag is already true, an invocation whose own passes 1 to 3 link
nothing (the token "b" twice on each side, the pass 3 arenas untouched
and no border appended) still runs the extension and links both
boundary pairs of both versions. -/
theorem wikEdDiff_extension_amended :
    (∀ (cfg : WikConfig) (env : RegExpEnv) (level : Level) (repeating : Bool)
      (ns os : Option Nat) (up : Bool) (rl : Nat) (g : GState),
      (calcCore cfg env level repeating ns os up rl g).linked = false →
      (calcCore cfg env level repeating ns os up rl g).g.newText.tokens =
        g.newText.tokens ∧
      (calcCore cfg env level repeating ns os up rl g).g.oldText.tokens =
        g.oldText.tokens) ∧
    (∀ (newT oldT : Array Tok) (newFirst oldFirst : Option Nat),
      (tokenWalk newT Tok.next (newT.size + 1) newFirst).Nodup →
      (tokenWalk oldT Tok.next (newT.size + 1) oldFirst).Nodup →
      (∀ p ∈ tokenWalk newT Tok.next (newT.size + 1) newFirst,
        p < newT.size) →
      (∀ q ∈ tokenWalk oldT Tok.next (newT.size + 1) oldFirst,
        q < oldT.size) →
      extLinksSpec Tok.next newT oldT (newT.size + 1) newFirst oldFirst
        (extendStart newT oldT newFirst oldFirst)) ∧
    (∀ (newT oldT : Array Tok) (newLast oldLast : Option Nat),
      (tokenWalk newT Tok.prev (newT.size + 1) newLast).Nodup →
      (tokenWalk oldT Tok.prev (newT.size + 1) oldLast).Nodup →
      (∀ p ∈ tokenWalk newT Tok.prev (newT.size + 1) newLast,
        p < newT.size) →
      (∀ q ∈ tokenWalk oldT Tok.prev (newT.size + 1) oldLast,
        q < oldT.size) →
      extLinksSpec Tok.prev newT oldT (newT.size + 1) newLast oldLast
        (extendEnd newT oldT newLast oldLast)) ∧
    ((corePasses defaultWikConfig asciiRegExpEnv Level.word false (some 0)
        (some 0) false 0 persistGState).2.newTokens =
        persistGState.newText.tokens ∧
      (corePasses defaultWikConfig asciiRegExpEnv Level.word false (some 0)
        (some 0) false 0 persistGState).2.oldTokens =
        persistGState.oldText.tokens ∧
      (corePasses defaultWikConfig asciiRegExpEnv Level.word false (some 0)
        (some 0) false 0 persistGState).2.bordersDown = [] ∧
      (corePasses defaultWikConfig asciiRegExpEnv Level.word false (some 0)
        (some 0) false 0 persistGState).2.bordersUp = [] ∧
      (getTok (calcCore defaultWikConfig asciiRegExpEnv Level.word false
        (some 0) (some 0) false 0 persistGState).g.newText.tokens 0).link =
        some 0 ∧
      (getTok (calcCore defaultWikConfig asciiRegExpEnv Level.word false
        (some 0) (some 0) false 0 persistGState).g.newText.tokens 1).link =
        some 1 ∧
      (getTok (calcCore defaultWikConfig asciiRegExpEnv Level.word false
        (some 0) (some 0) false 0 persistGState).g.oldText.tokens 0).link =
        some 0 ∧
      (getTok (calcCore defaultWikConfig asciiRegExpEnv Level.word false
        (some 0) (some 0) false 0 persistGState).g.oldText.tokens 1).link =
        some 1) := by
  refine ⟨?_, ?_, ?_, ?_⟩
  · intro cfg env level repeating ns os up rl g h
    exact calcCore_arenas_unchanged_of_not_linked cfg env level repeating
      ns os up rl g h
  · intro newT oldT newFirst oldFirst hn ho hrn hro
    exact extendLoopGo_spec Tok.next (fun _ _ => rfl) (newT.size + 1)
      newT oldT newFirst oldFirst none hn ho hrn hro
  · intro newT oldT newLast oldLast hn ho hrn hro
    exact extendLoopGo_spec Tok.prev (fun _ _ => rfl) (newT.size + 1)
      newT oldT newLast oldLast none hn ho hrn hro
  · decide

/-- Witness for the amended C7 at concrete inputs: on cexGState the
linked flag is false and the arenas come back unchanged; on the two
token arenas "x" "b" versus "x" "c" (duplicate free, in range walks) the
start extension satisfies the maximal run specification. -/
theorem wikEdDiff_extension_amended_witness :
    ((calcCore defaultWikConfig asciiRegExpEnv Level.word false (some 0)
        (some 0) false 0 cexGState).linked = false ∧
      (calcCore defaultWikConfig asciiRegExpEnv Level.word false (some 0)
        (some 0) false 0 cexGState).g.newText.tokens =
        cexGState.newText.tokens ∧
      (calcCore defaultWikConfig asciiRegExpEnv Level.word false (some 0)
        (some 0) false 0 cexGState).g.oldText.tokens =
        cexGState.oldText.tokens) ∧
    extLinksSpec Tok.next extWitNewTokens extWitOldTokens
      (extWitNewTokens.size + 1) (some 0) (some 0)
      (extendStart extWitNewTokens extWitOldTokens (some 0) (some 0)) :=
  ⟨⟨by decide,
    wikEdDiff_extension_amended.1 defaultWikConfig asciiRegExpEnv Level.word
      false (some 0) (some 0) false 0 cexGState (by decide)⟩,
    wikEdDiff_extension_amended.2.1 extWitNewTokens extWitOldTokens
      (some 0) (some 0) (by decide) (by decide) (by decide) (by decide)⟩

/-! ### The stable sort is a permutation -/

theorem insertStable_perm {α : Type} (le : α → α → Bool) (x : α) :
    ∀ l : List α, (insertStable le x l).Perm (x :: l) := by
  intro l
  induction l with
  | nil => exact List.Perm.refl _
  | cons y ys ih =>
    rw [insertStable]
    split
    · exact (ih.cons y).trans (List.Perm.swap x y ys)
    · exact List.Perm.refl _

theorem stableSortBy_perm {α : Type} (le : α → α → Bool) (l : List α) :
    (stableSortBy le l).Perm l := by
  have aux : ∀ (l acc : List α),
      (l.foldl (fun acc x => insertStable le x acc) acc).Perm (acc ++ l) := by
    intro l
    induction l with
    | nil => intro acc; simp
    | cons x t ih =>
      intro acc
      have h1 := ih (insertStable le x acc)
      refine List.Perm.trans h1 ?_
      have h2 : (insertStable le x acc ++ t).Perm ((x :: acc) ++ t) :=
        (insertStable_perm le x acc).append_right t
      refine h2.trans ?_
      simpa using List.perm_middle.symm
  simpa using aux l []

/-! ### The fragment join keeps types, colors, counts, and order -/

theorem mergeLoop_mem_typecolor :
    ∀ (rest : List Fragment) (prev : Fragment) (f : Fragment),
      f ∈ mergeLoop prev rest →
      ∃ f0 ∈ prev :: rest, f.type = f0.type ∧ f.color = f0.color := by
  intro rest
  induction rest with
  | nil =>
    intro prev f hf
    rw [mergeLoop] at hf
    simp only [List.mem_singleton] at hf
    exact ⟨prev, List.mem_cons_self _ _, by rw [hf], by rw [hf]⟩
  | cons x xs ih =>
    intro prev f hf
    rw [mergeLoop] at hf
    split at hf
    · obtain ⟨f0, hf0, ht, hc⟩ := ih _ f hf
      rcases List.mem_cons.mp hf0 with h0 | h0
      · exact ⟨prev, List.mem_cons_self _ _, by rw [ht, h0], by rw [hc, h0]⟩
      · exact ⟨f0, List.mem_cons_of_mem _ (List.mem_cons_of_mem _ h0), ht, hc⟩
    · rcases List.mem_cons.mp hf with h0 | h0
      · exact ⟨prev, List.mem_cons_self _ _, by rw [h0], by rw [h0]⟩
      · obtain ⟨f0, hf0, ht, hc⟩ := ih _ f h0
        exact ⟨f0, List.mem_cons_of_mem _ hf0, ht, hc⟩

theorem mergeLoop_pairwise (R : Fragment → Fragment → Prop)
    (hR : ∀ a a' b b' : Fragment, a.type = a'.type → a.color = a'.color →
      b.type = b'.type → b.color = b'.color → R a b → R a' b') :
    ∀ (rest : List Fragment) (prev : Fragment),
      List.Pairwise R (prev :: rest) →
      List.Pairwise R (mergeLoop prev rest) := by
  intro rest
  induction rest with
  | nil =>
    intro prev _
    rw [mergeLoop]
    exact List.pairwise_singleton R prev
  | cons x xs ih =>
    intro prev hp
    rw [mergeLoop]
    split
    · apply ih
      rw [List.pairwise_cons] at hp ⊢
      obtain ⟨hhead, htail⟩ := hp
      rw [List.pairwise_cons] at htail
      refine ⟨?_, htail.2⟩
      intro b hb
      exact hR prev _ b b rfl rfl rfl rfl
        (hhead b (List.mem_cons_of_mem _ hb))
    · rw [List.pairwise_cons] at hp
      obtain ⟨hhead, htail⟩ := hp
      rw [List.pairwise_cons]
      refine ⟨?_, ih _ htail⟩
      intro b hb
      obtain ⟨f0, hf0, ht, hc⟩ := mergeLoop_mem_typecolor xs x b hb
      exact hR prev prev f0 b rfl rfl ht.symm hc.symm (hhead f0 hf0)

theorem mergeLoop_countP (P : Fragment → Bool)
    (hP : ∀ a b : Fragment, a.type = b.type → a.color = b.color →
      P a = P b) :
    ∀ (rest : List Fragment) (prev : Fragment),
      (∀ f ∈ prev :: rest, P f = true → f.text = "") →
      (mergeLoop prev rest).countP P = (prev :: rest).countP P := by
  intro rest
  induction rest with
  | nil => intro prev _; rfl
  | cons x xs ih =>
    intro prev hEmpty
    rw [mergeLoop]
    split
    · rename_i hcond
      have hPx : P x = false := by
        by_contra hx
        have hx2 : P x = true := by
          cases hv : P x
          · exact absurd hv hx
          · rfl
        have := hEmpty x (List.mem_cons_of_mem _ (List.mem_cons_self _ _)) hx2
        exact hcond.2.2.1 this
      have hPprev : P { prev with text := prev.text ++ x.text } = P prev :=
        hP _ _ rfl rfl
      have hPprevF : P prev = false := by
        by_contra hx
        have hx2 : P prev = true := by
          cases hv : P prev
          · exact absurd hv hx
          · rfl
        have := hEmpty prev (List.mem_cons_self _ _) hx2
        exact hcond.2.2.2 this
      rw [ih _ ?_]
      · rw [List.countP_cons, List.countP_cons, List.countP_cons, hPx,
          hPprev, hPprevF]
        simp
      · intro f hf hPf
        rcases List.mem_cons.mp hf with h0 | h0
        · rw [h0, hPprev] at hPf
          rw [hPf] at hPprevF
          exact absurd hPprevF (by decide)
        · exact hEmpty f
            (List.mem_cons_of_mem _ (List.mem_cons_of_mem _ h0)) hPf
    · have hrec := ih x (fun f hf hPf =>
        hEmpty f (List.mem_cons_of_mem _ hf) hPf)
      rw [List.countP_cons, hrec, ← List.countP_cons]

theorem mergeFragments_countP (P : Fragment → Bool)
    (hP : ∀ a b : Fragment, a.type = b.type → a.color = b.color →
      P a = P b)
    (l : List Fragment) (hEmpty : ∀ f ∈ l, P f = true → f.text = "") :
    (mergeFragments l).countP P = l.countP P := by
  cases l with
  | nil => rfl
  | cons f fs => exact mergeLoop_countP P hP fs f hEmpty

theorem mergeFragments_pairwise (R : Fragment → Fragment → Prop)
    (hR : ∀ a a' b b' : Fragment, a.type = a'.type → a.color = a'.color →
      b.type = b'.type → b.color = b'.color → R a b → R a' b')
    (l : List Fragment) (h : List.Pairwise R l) :
    List.Pairwise R (mergeFragments l) := by
  cases l with
  | nil => exact List.Pairwise.nil
  | cons f fs => exact mergeLoop_pairwise R hR fs f h

theorem mergeFragments_mem_typecolor (l : List Fragment) (f : Fragment)
    (hf : f ∈ mergeFragments l) :
    ∃ f0 ∈ l, f.type = f0.type ∧ f.color = f0.color := by
  cases l with
  | nil => simp [mergeFragments] at hf
  | cons x xs => exact mergeLoop_mem_typecolor xs x f hf

/-! ### Shape of the fragments emitted for one group -/

theorem noCloseBeforeOpen_of_not_close (c : Nat) {a : Fragment}
    (b : Fragment) (h : a.type ≠ FType.moveClose) :
    noCloseBeforeOpen c a b := by
  intro hcon
  exact h hcon.1

theorem noCloseBeforeOpen_of_not_open (c : Nat) (a : Fragment)
    {b : Fragment} (h : b.type.isMoveOpen ≠ true) :
    noCloseBeforeOpen c a b := by
  intro hcon
  exact h hcon.2.2.1

theorem blockFragment_type_mem (bl : List Block) (gr : List DiffGroup)
    (color bs idx : Nat) :
    (blockFragment bl gr color bs idx).type = FType.same ∨
    (blockFragment bl gr color bs idx).type = FType.del ∨
    (blockFragment bl gr color bs idx).type = FType.ins ∨
    (blockFragment bl gr color bs idx).type = FType.markLeft ∨
    (blockFragment bl gr color bs idx).type = FType.markRight := by
  cases hbt : (blocksGet bl idx).type <;> simp only [blockFragment, hbt]
  · simp
  · simp
  · simp
  · split
    · exact Or.inr (Or.inr (Or.inr (Or.inl rfl)))
    · exact Or.inr (Or.inr (Or.inr (Or.inr rfl)))

theorem blockFragment_not_close (bl : List Block) (gr : List DiffGroup)
    (color bs idx : Nat) :
    (blockFragment bl gr color bs idx).type ≠ FType.moveClose := by
  rcases blockFragment_type_mem bl gr color bs idx with h | h | h | h | h <;>
    (rw [h]; decide)

theorem blockFragment_not_open (bl : List Block) (gr : List DiffGroup)
    (color bs idx : Nat) :
    (blockFragment bl gr color bs idx).type.isMoveOpen ≠ true := by
  rcases blockFragment_type_mem bl gr color bs idx with h | h | h | h | h <;>
    (rw [h]; decide)

theorem groupFragments_mem (bl : List Block) (gr : List DiffGroup)
    (g : DiffGroup) (f : Fragment) (hf : f ∈ groupFragments bl gr g) :
    (f.type.isMoveOpen = true →
      f.color = g.color ∧ g.color ≠ 0 ∧ f.text = "") ∧
    (f.type = FType.moveClose →
      f.color = g.color ∧ g.color ≠ 0 ∧ f.text = "") ∧
    f.type ≠ FType.containerStart ∧ f.type ≠ FType.containerEnd ∧
    f.type ≠ FType.fragStart ∧ f.type ≠ FType.fragEnd := by
  unfold groupFragments at hf
  dsimp only at hf
  rw [List.mem_append, List.mem_append] at hf
  rcases hf with (hf | hf) | hf
  · split at hf
    · rename_i hcol
      by_cases hdir : (g.movedFrom.getD 0) <
          ((blocksGet bl g.blockStart).group.getD 0)
      · rw [if_pos hdir] at hf
        simp only [List.mem_singleton] at hf
        subst hf
        exact ⟨fun _ => ⟨rfl, hcol, rfl⟩, fun hcl => FType.noConfusion hcl,
          fun hh => FType.noConfusion hh, fun hh => FType.noConfusion hh,
          fun hh => FType.noConfusion hh, fun hh => FType.noConfusion hh⟩
      · rw [if_neg hdir] at hf
        simp only [List.mem_singleton] at hf
        subst hf
        exact ⟨fun _ => ⟨rfl, hcol, rfl⟩, fun hcl => FType.noConfusion hcl,
          fun hh => FType.noConfusion hh, fun hh => FType.noConfusion hh,
          fun hh => FType.noConfusion hh, fun hh => FType.noConfusion hh⟩
    · simp at hf
  · obtain ⟨idx, _, hfe⟩ := List.mem_map.mp hf
    subst hfe
    refine ⟨fun ho => absurd ho (blockFragment_not_open bl gr _ _ idx),
      fun hc => absurd hc (blockFragment_not_close bl gr _ _ idx),
      ?_, ?_, ?_, ?_⟩ <;>
      (rcases blockFragment_type_mem bl gr g.color g.blockStart idx with
        h | h | h | h | h <;> (rw [h]; decide))
  · split at hf
    · rename_i hcol
      simp only [List.mem_singleton] at hf
      subst hf
      exact ⟨fun ho => Bool.noConfusion ho, fun _ => ⟨rfl, hcol, rfl⟩,
        fun hh => FType.noConfusion hh, fun hh => FType.noConfusion hh,
        fun hh => FType.noConfusion hh, fun hh => FType.noConfusion hh⟩
    · simp at hf

theorem groupFragments_countP_close (bl : List Block) (gr : List DiffGroup)
    (g : DiffGroup) (c : Nat) :
    (groupFragments bl gr g).countP (isCloseC c) =
      if groupColorHit c g then 1 else 0 := by
  have hbody : ∀ l : List Nat,
      ((l.map (blockFragment bl gr g.color g.blockStart)).countP
        (isCloseC c)) = 0 := by
    intro l
    rw [List.countP_eq_zero]
    intro f hf
    obtain ⟨idx, _, hfe⟩ := List.mem_map.mp hf
    subst hfe
    simp only [isCloseC]
    intro hcon
    exact absurd (of_decide_eq_true hcon).1
      (blockFragment_not_close bl gr _ _ idx)
  by_cases hcol : g.color ≠ 0
  · unfold groupFragments
    dsimp only
    rw [if_pos hcol, if_pos hcol, List.countP_append, List.countP_append,
      hbody, List.countP_singleton, List.countP_singleton]
    have hO : isCloseC c (⟨"", g.color,
        if (g.movedFrom.getD 0) < ((blocksGet bl g.blockStart).group.getD 0)
        then FType.moveOpenLeft else FType.moveOpenRight⟩ : Fragment) =
        false := by
      simp only [isCloseC]
      split <;> simp
    rw [hO]
    by_cases hc : g.color = c
    · have h1 : isCloseC c (⟨"", g.color, FType.moveClose⟩ : Fragment) =
          true := by
        simp [isCloseC, hc]
      have h2 : groupColorHit c g = true := by
        simp only [groupColorHit, decide_eq_true_eq]
        exact ⟨hcol, hc⟩
      rw [h1, h2]
      simp
    · have h1 : isCloseC c (⟨"", g.color, FType.moveClose⟩ : Fragment) =
          false := by
        simp [isCloseC, hc]
      have h2 : groupColorHit c g = false := by
        simp [groupColorHit, hc]
      rw [h1, h2]
      simp
  · unfold groupFragments
    dsimp only
    rw [if_neg hcol, if_neg hcol]
    have h2 : groupColorHit c g = false := by
      simp only [ne_eq, not_not] at hcol
      simp [groupColorHit, hcol]
    rw [h2]
    simp only [List.nil_append, List.append_nil]
    rw [hbody]
    simp

theorem sum_map_ite_countP {α : Type} (P : α → Bool) (l : List α) :
    (l.map (fun a => if P a then 1 else 0)).sum = l.countP P := by
  induction l with
  | nil => rfl
  | cons a t ih =>
    rw [List.map_cons, List.sum_cons, ih, List.countP_cons]
    by_cases h : P a <;> simp [h] <;> omega

theorem nodup_filter_map_tail (g : DiffGroup) (t : List DiffGroup)
    (h : (((g :: t).map DiffGroup.color).filter
      (fun c => decide (c ≠ 0))).Nodup) :
    ((t.map DiffGroup.color).filter (fun c => decide (c ≠ 0))).Nodup := by
  rw [List.map_cons, List.filter_cons] at h
  split at h
  · exact (List.nodup_cons.mp h).2
  · exact h

theorem countP_hit_le_one (c : Nat) :
    ∀ (l : List DiffGroup),
      ((l.map DiffGroup.color).filter (fun c => decide (c ≠ 0))).Nodup →
      l.countP (groupColorHit c) ≤ 1 := by
  intro l
  induction l with
  | nil => intro _; simp
  | cons g t ih =>
    intro h
    rw [List.countP_cons]
    by_cases hg : groupColorHit c g = true
    · have hgc : g.color ≠ 0 ∧ g.color = c := of_decide_eq_true hg
      have hzero : t.countP (groupColorHit c) = 0 := by
        rw [List.countP_eq_zero]
        intro g2 hg2 hhit
        have hg2c : g2.color ≠ 0 ∧ g2.color = c := of_decide_eq_true hhit
        rw [List.map_cons, List.filter_cons] at h
        rw [if_pos (by simp [hgc.1])] at h
        have hmem : g.color ∈ (t.map DiffGroup.color).filter
            (fun c => decide (c ≠ 0)) := by
          rw [List.mem_filter]
          refine ⟨?_, by simp [hgc.1]⟩
          rw [hgc.2, ← hg2c.2]
          exact List.mem_map.mpr ⟨g2, hg2, rfl⟩
        exact (List.nodup_cons.mp h).1 hmem
      rw [hzero, hg]
      simp
    · have hgf : groupColorHit c g = false := by
        cases hv : groupColorHit c g
        · rfl
        · exact absurd hv hg
      rw [hgf]
      have := ih (nodup_filter_map_tail g t h)
      simp only [if_neg (by simp : ¬ (false = true))]
      omega

theorem pairwise_distinct_colors :
    ∀ (l : List DiffGroup),
      ((l.map DiffGroup.color).filter (fun c => decide (c ≠ 0))).Nodup →
      List.Pairwise (fun g1 g2 : DiffGroup =>
        ¬ (g1.color ≠ 0 ∧ g2.color ≠ 0 ∧ g1.color = g2.color)) l := by
  intro l
  induction l with
  | nil => intro _; exact List.Pairwise.nil
  | cons g t ih =>
    intro h
    rw [List.pairwise_cons]
    refine ⟨?_, ih (nodup_filter_map_tail g t h)⟩
    intro g2 hg2 hcon
    rw [List.map_cons, List.filter_cons] at h
    rw [if_pos (by simp [hcon.1])] at h
    have hmem : g.color ∈ (t.map DiffGroup.color).filter
        (fun c => decide (c ≠ 0)) := by
      rw [List.mem_filter]
      refine ⟨?_, by simp [hcon.1]⟩
      rw [hcon.2.2]
      exact List.mem_map.mpr ⟨g2, hg2, rfl⟩
    exact (List.nodup_cons.mp h).1 hmem

/-! ### The full fragment stream: counting and ordering of moved marks -/

theorem isCloseC_congr (c : Nat) : ∀ a b : Fragment, a.type = b.type →
    a.color = b.color → isCloseC c a = isCloseC c b := by
  intro a b ht hc
  simp only [isCloseC, ht, hc]

theorem noCloseBeforeOpen_congr (c : Nat) :
    ∀ a a2 b b2 : Fragment, a.type = a2.type → a.color = a2.color →
      b.type = b2.type → b.color = b2.color →
      noCloseBeforeOpen c a b → noCloseBeforeOpen c a2 b2 := by
  intro a a2 b b2 ht hcl ht2 hcl2 h hcon
  exact h ⟨ht.trans hcon.1, hcl.trans hcon.2.1,
    by rw [ht2]; exact hcon.2.2.1, hcl2.trans hcon.2.2.2⟩

theorem groupFragments_pairwise (bl : List Block) (gr : List DiffGroup)
    (g : DiffGroup) (c : Nat) :
    List.Pairwise (noCloseBeforeOpen c) (groupFragments bl gr g) := by
  unfold groupFragments
  dsimp only
  rw [List.pairwise_append]
  refine ⟨?_, ?_, ?_⟩
  · rw [List.pairwise_append]
    refine ⟨?_, ?_, ?_⟩
    · split
      · exact List.pairwise_singleton _ _
      · exact List.Pairwise.nil
    · apply List.pairwise_of_forall_mem_list
      intro a ha b _
      obtain ⟨idx, _, hfe⟩ := List.mem_map.mp ha
      subst hfe
      exact noCloseBeforeOpen_of_not_close c b
        (blockFragment_not_close bl gr _ _ idx)
    · intro a ha b _
      split at ha
      · simp only [List.mem_singleton] at ha
        subst ha
        refine noCloseBeforeOpen_of_not_close c b ?_
        dsimp only
        split
        · decide
        · decide
      · simp at ha
  · split
    · exact List.pairwise_singleton _ _
    · exact List.Pairwise.nil
  · intro a ha b _
    rw [List.mem_append] at ha
    rcases ha with ha | ha
    · split at ha
      · simp only [List.mem_singleton] at ha
        subst ha
        refine noCloseBeforeOpen_of_not_close c b ?_
        dsimp only
        split
        · decide
        · decide
      · simp at ha
    · obtain ⟨idx, _, hfe⟩ := List.mem_map.mp ha
      subst hfe
      exact noCloseBeforeOpen_of_not_close c b
        (blockFragment_not_close bl gr _ _ idx)

theorem inner_pairwise (bl : List Block) (gr : List DiffGroup) (c : Nat)
    (gs : List DiffGroup)
    (hdist : List.Pairwise (fun g1 g2 : DiffGroup =>
      ¬ (g1.color ≠ 0 ∧ g2.color ≠ 0 ∧ g1.color = g2.color)) gs) :
    List.Pairwise (noCloseBeforeOpen c)
      ((gs.map (groupFragments bl gr)).flatten) := by
  rw [List.pairwise_flatten]
  constructor
  · intro l hl
    obtain ⟨g, _, hge⟩ := List.mem_map.mp hl
    subst hge
    exact groupFragments_pairwise bl gr g c
  · rw [List.pairwise_map]
    refine List.Pairwise.imp ?_ hdist
    intro g1 g2 hno x hx y hy hcon
    obtain ⟨hxc, hxne, _⟩ := (groupFragments_mem bl gr g1 x hx).2.1 hcon.1
    obtain ⟨hyc, hyne, _⟩ := (groupFragments_mem bl gr g2 y hy).1 hcon.2.2.1
    exact hno ⟨hxne, hyne,
      (hxc.symm.trans hcon.2.1).trans (hyc.symm.trans hcon.2.2.2).symm⟩

theorem inner_countP_close (bl : List Block) (gr : List DiffGroup)
    (c : Nat) (gs : List DiffGroup) :
    ((gs.map (groupFragments bl gr)).flatten).countP (isCloseC c) =
      gs.countP (groupColorHit c) := by
  induction gs with
  | nil => rfl
  | cons g t ih =>
    rw [List.map_cons, List.flatten_cons, List.countP_append, ih,
      groupFragments_countP_close, List.countP_cons]
    cases h : groupColorHit c g <;> simp [h, Nat.add_comm]

theorem getDiffFragments_countP_close (bl : List Block)
    (gr : List DiffGroup) (c : Nat)
    (h1 : gr.countP (groupColorHit c) = 1) :
    (getDiffFragments bl gr).countP (isCloseC c) = 1 := by
  have hE : ∀ f ∈ ((stableSortBy (fun a b => a.blockStart ≤ b.blockStart)
      gr).map (groupFragments bl gr)).flatten,
      isCloseC c f = true → f.text = "" := by
    intro f hf hPf
    obtain ⟨lg, hlg, hfl⟩ := List.mem_flatten.mp hf
    obtain ⟨g, _, hge⟩ := List.mem_map.mp hlg
    subst hge
    simp only [isCloseC, decide_eq_true_eq] at hPf
    exact ((groupFragments_mem bl gr g f hfl).2.1 hPf.1).2.2
  have hmerged : (mergeFragments ((stableSortBy
      (fun a b => a.blockStart ≤ b.blockStart) gr).map
      (groupFragments bl gr)).flatten).countP (isCloseC c) = 1 := by
    rw [mergeFragments_countP (isCloseC c) (isCloseC_congr c) _ hE,
      inner_countP_close,
      List.Perm.countP_eq (groupColorHit c)
        (stableSortBy_perm (fun a b => a.blockStart ≤ b.blockStart) gr),
      h1]
  unfold getDiffFragments
  dsimp only
  rw [List.countP_cons, List.countP_cons, List.countP_append,
    List.countP_cons, List.countP_cons, List.countP_nil, hmerged]
  simp [isCloseC]

theorem getDiffFragments_pairwise (bl : List Block) (gr : List DiffGroup)
    (c : Nat)
    (hnd : ((gr.map DiffGroup.color).filter
      (fun x => decide (x ≠ 0))).Nodup) :
    List.Pairwise (noCloseBeforeOpen c) (getDiffFragments bl gr) := by
  have hsym : ∀ {x y : DiffGroup},
      ¬ (x.color ≠ 0 ∧ y.color ≠ 0 ∧ x.color = y.color) →
      ¬ (y.color ≠ 0 ∧ x.color ≠ 0 ∧ y.color = x.color) := by
    intro x y h hcon
    exact h ⟨hcon.2.1, hcon.1, hcon.2.2.symm⟩
  have hsorted : List.Pairwise (fun g1 g2 : DiffGroup =>
      ¬ (g1.color ≠ 0 ∧ g2.color ≠ 0 ∧ g1.color = g2.color))
      (stableSortBy (fun a b => a.blockStart ≤ b.blockStart) gr) :=
    ((stableSortBy_perm (fun a b => a.blockStart ≤ b.blockStart)
      gr).pairwise_iff hsym).mpr (pairwise_distinct_colors gr hnd)
  have hinner := inner_pairwise bl gr c _ hsorted
  have hmerged := mergeFragments_pairwise (noCloseBeforeOpen c)
    (noCloseBeforeOpen_congr c) _ hinner
  unfold getDiffFragments
  dsimp only
  rw [List.pairwise_cons]
  refine ⟨fun b _ => noCloseBeforeOpen_of_not_close c b
    (fun hh => FType.noConfusion hh), ?_⟩
  rw [List.pairwise_cons]
  refine ⟨fun b _ => noCloseBeforeOpen_of_not_close c b
    (fun hh => FType.noConfusion hh), ?_⟩
  rw [List.pairwise_append]
  refine ⟨hmerged, ?_, ?_⟩
  · exact List.Pairwise.cons
      (fun b _ => noCloseBeforeOpen_of_not_close c b
        (fun hh => FType.noConfusion hh))
      (List.pairwise_singleton _ _)
  · intro a _ b hb
    simp only [List.mem_cons, List.not_mem_nil, or_false] at hb
    rcases hb with hb | hb
    · subst hb
      exact noCloseBeforeOpen_of_not_open c a (fun hh => Bool.noConfusion hh)
    · subst hb
      exact noCloseBeforeOpen_of_not_open c a (fun hh => Bool.noConfusion hh)

theorem cons_cons_append_getElem_last {α : Type} (A B x y : α)
    (L : List α)
    (h : L.length + 3 < (A :: B :: (L ++ [x, y])).length) :
    (A :: B :: (L ++ [x, y]))[L.length + 3] = y := by
  have h1 : (A :: B :: (L ++ [x, y]))[L.length + 3] =
      (L ++ [x, y])[L.length + 1] :=
    (List.getElem_cons_succ A _ (L.length + 2) h).trans
      (List.getElem_cons_succ B _ (L.length + 1)
        (by simp only [List.length_cons, List.length_append,
          List.length_nil] at h ⊢; omega))
  rw [h1, List.getElem_append_right (by omega)]
  simp

theorem cons_cons_append_getElem_penult {α : Type} (A B x y : α)
    (L : List α)
    (h : L.length + 2 < (A :: B :: (L ++ [x, y])).length) :
    (A :: B :: (L ++ [x, y]))[L.length + 2] = x := by
  have h1 : (A :: B :: (L ++ [x, y]))[L.length + 2] =
      (L ++ [x, y])[L.length] :=
    (List.getElem_cons_succ A _ (L.length + 1) h).trans
      (List.getElem_cons_succ B _ L.length
        (by simp only [List.length_cons, List.length_append,
          List.length_nil] at h ⊢; omega))
  rw [h1, List.getElem_append_right (by omega)]
  simp

theorem wrapped_stream_ends (L : List Fragment) (S : List Fragment)
    (hS : S = wrapStream L) (p : Nat) (hp : p < S.length) :
    ((S[p]).type = FType.containerStart →
      ∃ q, p < q ∧ ∃ hq : q < S.length,
        (S[q]).type = FType.containerEnd) ∧
    ((S[p]).type = FType.fragStart →
      ∃ q, p < q ∧ ∃ hq : q < S.length,
        (S[q]).type = FType.fragEnd) := by
  subst hS
  have hlen : (wrapStream L).length = L.length + 4 := by
    simp only [wrapStream, List.length_cons, List.length_append,
      List.length_nil]
  have hlast : ∀ h : L.length + 3 < (wrapStream L).length,
      (wrapStream L)[L.length + 3] =
        (⟨"", 0, FType.containerEnd⟩ : Fragment) := by
    intro h
    exact cons_cons_append_getElem_last _ _ _ _ L h
  have hpen : ∀ h : L.length + 2 < (wrapStream L).length,
      (wrapStream L)[L.length + 2] =
        (⟨"", 0, FType.fragEnd⟩ : Fragment) := by
    intro h
    exact cons_cons_append_getElem_penult _ _ _ _ L h
  constructor
  · intro hcs
    have hq : L.length + 3 < (wrapStream L).length := by omega
    refine ⟨L.length + 3, ?_, hq, ?_⟩
    · rcases Nat.lt_or_ge p (L.length + 3) with hlt | hge
      · exact hlt
      · exfalso
        have hpe : p = L.length + 3 := by omega
        subst hpe
        rw [hlast hp] at hcs
        exact absurd hcs (by decide)
    · rw [hlast hq]
  · intro hfs
    have hq : L.length + 2 < (wrapStream L).length := by omega
    refine ⟨L.length + 2, ?_, hq, ?_⟩
    · rcases Nat.lt_or_ge p (L.length + 2) with hlt | hge
      · exact hlt
      · exfalso
        have hpe : p = L.length + 2 ∨ p = L.length + 3 := by omega
        rcases hpe with hpe | hpe
        · subst hpe
          rw [hpen hp] at hfs
          exact absurd hfs (by decide)
        · subst hpe
          rw [hlast hp] at hfs
          exact absurd hfs (by decide)
    · rw [hpen hq]

theorem open_has_unique_later_close (bl : List Block)
    (gr : List DiffGroup)
    (hnd : ((gr.map DiffGroup.color).filter
      (fun x => decide (x ≠ 0))).Nodup)
    (p : Nat) (hp : p < (getDiffFragments bl gr).length)
    (hopen : ((getDiffFragments bl gr)[p]).type.isMoveOpen = true) :
    ((getDiffFragments bl gr).drop (p + 1)).countP
      (isCloseC (((getDiffFragments bl gr)[p]).color)) = 1 := by
  set c := ((getDiffFragments bl gr)[p]).color with hcdef
  have hmemF : (getDiffFragments bl gr)[p] ∈ getDiffFragments bl gr :=
    List.getElem_mem hp
  have hmemM : (getDiffFragments bl gr)[p] ∈
      mergeFragments ((stableSortBy
        (fun a b => a.blockStart ≤ b.blockStart)
        gr).map (groupFragments bl gr)).flatten := by
    unfold getDiffFragments at hmemF
    dsimp only at hmemF
    rw [List.mem_cons] at hmemF
    rcases hmemF with h | hmemF
    · exfalso
      have h2 : (Fragment.mk "" 0 FType.containerStart).type.isMoveOpen =
          true := by
        rw [← h]; exact hopen
      exact absurd h2 (by decide)
    · rw [List.mem_cons] at hmemF
      rcases hmemF with h | hmemF
      · exfalso
        have h2 : (Fragment.mk "" 0 FType.fragStart).type.isMoveOpen =
            true := by
          rw [← h]; exact hopen
        exact absurd h2 (by decide)
      · rw [List.mem_append] at hmemF
        rcases hmemF with h | hmemF
        · exact h
        · exfalso
          simp only [List.mem_cons, List.not_mem_nil, or_false] at hmemF
          rcases hmemF with h | h
          · have h2 : (Fragment.mk "" 0 FType.fragEnd).type.isMoveOpen =
                true := by
              rw [← h]; exact hopen
            exact absurd h2 (by decide)
          · have h2 :
                (Fragment.mk "" 0 FType.containerEnd).type.isMoveOpen =
                true := by
              rw [← h]; exact hopen
            exact absurd h2 (by decide)
  obtain ⟨f0, hf0in, ht0, hc0⟩ := mergeFragments_mem_typecolor _ _ hmemM
  obtain ⟨lg, hlg, hf0l⟩ := List.mem_flatten.mp hf0in
  obtain ⟨g, hgs, hge⟩ := List.mem_map.mp hlg
  subst hge
  have hopen0 : f0.type.isMoveOpen = true := by
    rw [← ht0]; exact hopen
  obtain ⟨hfc, hgne, _⟩ := (groupFragments_mem bl gr g f0 hf0l).1 hopen0
  have hgc : g.color = c := by
    rw [hcdef, hc0, hfc]
  have hging : g ∈ gr :=
    ((stableSortBy_perm (fun a b => a.blockStart ≤ b.blockStart)
      gr).mem_iff).mp hgs
  have hhit : groupColorHit c g = true := by
    simp only [groupColorHit, decide_eq_true_eq]
    exact ⟨hgne, hgc⟩
  have hcnt1 : gr.countP (groupColorHit c) = 1 := by
    have hle := countP_hit_le_one c gr hnd
    have hpos : 0 < gr.countP (groupColorHit c) :=
      List.countP_pos.mpr ⟨g, hging, hhit⟩
    omega
  have hFcnt := getDiffFragments_countP_close bl gr c hcnt1
  have hpair := getDiffFragments_pairwise bl gr c hnd
  have hsplit : (getDiffFragments bl gr).countP (isCloseC c) =
      ((getDiffFragments bl gr).take (p + 1)).countP (isCloseC c) +
      ((getDiffFragments bl gr).drop (p + 1)).countP (isCloseC c) := by
    rw [← List.countP_append, List.take_append_drop]
  have htake : ((getDiffFragments bl gr).take (p + 1)).countP
      (isCloseC c) = 0 := by
    rw [List.countP_eq_zero]
    intro a ha hPa
    simp only [isCloseC, decide_eq_true_eq] at hPa
    obtain ⟨i, hi, hieq⟩ := List.mem_iff_getElem.mp ha
    rw [List.length_take] at hi
    obtain ⟨hilt, hilen⟩ := lt_min_iff.mp hi
    have hieq2 : (getDiffFragments bl gr)[i] = a :=
      (List.getElem_take _).symm.trans hieq
    rcases Nat.lt_or_ge i p with hlt | hge
    · have hR := List.pairwise_iff_getElem.mp hpair i p hilen hp hlt
      apply hR
      refine ⟨?_, ?_, ?_, ?_⟩
      · have h3 := hPa.1
        rw [← hieq2] at h3
        exact h3
      · have h3 := hPa.2
        rw [← hieq2] at h3
        exact h3
      · exact hopen
      · exact hcdef.symm
    · have hieqp : i = p := by omega
      subst hieqp
      have h3 := hPa.1
      rw [← hieq2] at h3
      have h4 : ((getDiffFragments bl gr)[i]).type.isMoveOpen = true :=
        hopen
      rw [h3] at h4
      exact absurd h4 (by decide)
  omega

/-- C3: in every fragment stream returned by getDiffFragments, a moved
block start fragment is closed by exactly one later moved block end
fragment of the same color, the container start fragment is followed by
a later container end fragment, and the fragment start fragment is
followed by a later fragment end fragment.  The counting part assumes
the nonzero group colors are pairwise distinct, which holds for colors
handed out by the single incrementing counter of insertGroup. -/
theorem wikEdDiff_fragment_stream_balanced (blocks : List Block)
    (groups : List DiffGroup)
    (hnd : ((groups.map DiffGroup.color).filter
      (fun c => decide (c ≠ 0))).Nodup)
    (p : Nat) (hp : p < (getDiffFragments blocks groups).length) :
    (((getDiffFragments blocks groups)[p]).type.isMoveOpen = true →
      ((getDiffFragments blocks groups).drop (p + 1)).countP
        (isCloseC (((getDiffFragments blocks groups)[p]).color)) = 1) ∧
    (((getDiffFragments blocks groups)[p]).type = FType.containerStart →
      ∃ q, p < q ∧ ∃ hq : q < (getDiffFragments blocks groups).length,
        ((getDiffFragments blocks groups)[q]).type =
          FType.containerEnd) ∧
    (((getDiffFragments blocks groups)[p]).type = FType.fragStart →
      ∃ q, p < q ∧ ∃ hq : q < (getDiffFragments blocks groups).length,
        ((getDiffFragments blocks groups)[q]).type = FType.fragEnd) := by
  have hW := wrapped_stream_ends (mergeFragments ((stableSortBy
    (fun a b : DiffGroup => decide (a.blockStart ≤ b.blockStart))
    groups).map (groupFragments blocks groups)).flatten)
    (getDiffFragments blocks groups) rfl p hp
  exact ⟨fun h => open_has_unique_later_close blocks groups hnd p hp h,
    fun h => hW.1 h, fun h => hW.2 h⟩

theorem wikEdDiff_fragment_stream_balanced_witness :
    ((c3WitGroups.map DiffGroup.color).filter
      (fun c => decide (c ≠ 0))).Nodup ∧
    3 < (getDiffFragments c3WitBlocks c3WitGroups).length ∧
    ((getDiffFragments c3WitBlocks c3WitGroups).drop (3 + 1)).countP
      (isCloseC (((getDiffFragments c3WitBlocks c3WitGroups).get
        ⟨3, by decide⟩)).color) = 1 :=
  ⟨by decide, by decide,
    (wikEdDiff_fragment_stream_balanced c3WitBlocks c3WitGroups
      (by decide) 3 (by decide)).1 (by decide)⟩
